import Mathlib

/-!
Verification development for the clawRS local-LLM agent.

Shallow embedding of the inference worker (src/src/inference/engine.rs,
src/src/inference/model.rs, src/src/inference/streaming.rs) and of the
agent-side chat loop (src/src/ui/chat/mod.rs, src/src/agent/mod.rs).

Conventions:
* Rust `u32`/`u64`/`usize` quantities are modelled as `Nat`; `saturating_sub`
  is ordinary `Nat` subtraction (already truncated at zero).
* Byte buffers are `List Nat` (each entry a byte value).
* The file system of `validate_gguf` is abstracted to `Option (List Nat)`:
  `none` is a file that cannot be opened (absent or unreadable), `some bytes`
  its contents.
* Channels never fail in the model: a send into the token sink always
  succeeds, so the receiver-dropped early-exit paths of the source are dead.
* Nondeterministic externals (the sampler, `ctx.decode`, the stop flag's
  value at each atomic load) are oracles supplied as function arguments.
-/

set_option maxHeartbeats 1000000

namespace ClawRS

/-! ## GGUF header validation — src/src/inference/model.rs -/

/-- Little-endian decoding of a byte list (least significant byte first),
as done by `u32::from_le_bytes` / `u64::from_le_bytes` on the slices read
by `validate_gguf`. -/
def leNat : List Nat → Nat
  | [] => 0
  | b :: rest => b % 256 + 256 * leNat rest

/-- model.rs:11 `GGUF_MAGIC` — little-endian "GGUF". -/
def GGUF_MAGIC : Nat := 0x46554747

/-- model.rs:15 `ModelError`. The `FileOpen` payload (an `std::io::Error`)
carries no information the control flow inspects, so it is dropped. -/
inductive ModelError
  | FileOpen
  | InvalidMagic (magic : Nat)
  | UnsupportedVersion (version : Nat)
  | FileTooSmall
deriving DecidableEq, Repr

/-- model.rs:31 `GgufMetadata`. -/
structure GgufMetadata where
  version : Nat
  tensor_count : Nat
  metadata_kv_count : Nat
deriving DecidableEq, Repr

/-- model.rs:48 `validate_gguf`. Opens the file (`none` ⇒ `FileOpen`),
requires at least 24 bytes, checks the magic, accepts versions 2 and 3 only,
then reads the two 8-byte counts. -/
def validate_gguf (file : Option (List Nat)) : Except ModelError GgufMetadata :=
  match file with
  | none => .error .FileOpen
  | some bytes =>
    if bytes.length < 24 then .error .FileTooSmall
    else
      let magic := leNat (bytes.take 4)
      if magic ≠ GGUF_MAGIC then .error (.InvalidMagic magic)
      else
        let version := leNat ((bytes.drop 4).take 4)
        if version < 2 ∨ version > 3 then .error (.UnsupportedVersion version)
        else .ok ⟨version, leNat ((bytes.drop 8).take 8), leNat ((bytes.drop 16).take 8)⟩

/-- engine.rs:40 `EngineError` (variants relevant to the modelled paths;
`ModelValidation` keeps the structured `ModelError` instead of its rendered
string). -/
inductive EngineError
  | BackendNotInitialized
  | NoModelLoaded
  | ModelLoad (msg : String)
  | ContextCreate (msg : String)
  | ModelValidation (e : ModelError)
  | Tokenization (msg : String)
  | Inference (msg : String)
deriving DecidableEq, Repr

/-- Does an `EngineError` use the `ModelLoad` constructor? -/
def EngineError.isModelLoad : EngineError → Bool
  | .ModelLoad _ => true
  | _ => false

/-- Does an `EngineError` use the `ModelValidation` constructor? -/
def EngineError.isModelValidation : EngineError → Bool
  | .ModelValidation _ => true
  | _ => false

/-- engine.rs:477 `load_model_internal` (worker side). Runs after the header
validation already happened on the calling thread. `backendInit` is whether
`WorkerCommand::Init` succeeded; `llamaLoad` abstracts the outcome of
`LlamaModel::load_from_file`. -/
def load_model_internal (backendInit : Bool) (file : Option (List Nat))
    (llamaLoad : Bool) : Except EngineError Unit :=
  if ¬ backendInit then .error .BackendNotInitialized
  else
    match file with
    | none => .error (.ModelLoad "Cannot read model file")
    | some bytes =>
      if bytes.length = 0 then .error (.ModelLoad "Model file is empty")
      else if llamaLoad then .ok () else .error (.ModelLoad "Load failed")

/-- engine.rs:250 `LlamaEngine::load_model`: validates the GGUF header on the
calling side (`validate_gguf` with the `From<ModelError> for EngineError`
conversion of engine.rs:69, which always produces `ModelValidation`), and only
then lets the worker run `load_model_internal`. -/
def load_model (backendInit : Bool) (file : Option (List Nat))
    (llamaLoad : Bool) : Except EngineError Unit :=
  match validate_gguf file with
  | .error e => .error (.ModelValidation e)
  | .ok _ => load_model_internal backendInit file llamaLoad

/-! ## Context sizing arithmetic — src/src/inference/engine.rs -/

/-- engine.rs:676 the `sizes` array of `pick_context_size`. -/
def standardSizes : List Nat := [2048, 4096, 8192, 16384, 32768, 65536, 131072]

/-- engine.rs:674 `pick_context_size`: first standard size `s` with
`s ≥ needed && s ≤ max`, scanned in ascending order; fallback
`min(needed, max)`. -/
def pick_context_size (needed maxv : Nat) : Nat :=
  match standardSizes.find? (fun s => decide (needed ≤ s ∧ s ≤ maxv)) with
  | some s => s
  | none => Nat.min needed maxv

/-- engine.rs:700 `calculate_optimal_batch`: step function of the prompt
length, clamped to `n_ctx`. -/
def calculate_optimal_batch (n_ctx prompt_len : Nat) : Nat :=
  let base : Nat :=
    if prompt_len < 512 then 2048
    else if prompt_len < 2048 then 1024
    else if prompt_len < 4096 then 512
    else 256
  Nat.min base n_ctx

/-- engine.rs:77 `GenerationParams`, restricted to the two fields the modelled
control flow reads (`max_tokens`, `max_context_size`); the float-valued
sampler fields never influence any modelled branch. -/
structure GenerationParams where
  max_tokens : Nat
  max_context_size : Nat
deriving DecidableEq, Repr

/-- engine.rs:562-565: the `needed` chain
`min(prompt+max_tokens, eff)` → `max(·, prompt+256)` → `min(·, eff)`. -/
def neededCtx (prompt_len : Nat) (params : GenerationParams)
    (effective_max : Nat) : Nat :=
  let needed := Nat.min (prompt_len + params.max_tokens) effective_max
  let needed := Nat.max needed (prompt_len + 256)
  Nat.min needed effective_max

/-- The claim's formula `clamp(x, lo, hi) = min (max x lo) hi` (stated from
the specification's words, for comparison with `neededCtx`). -/
def specClamp (x lo hi : Nat) : Nat := Nat.min (Nat.max x lo) hi

/-- The step function of the claim's batch rule
(`<512→2048, <2048→1024, <4096→512, else→256`), stated from the
specification's words. -/
def specStepBatch (prompt_len : Nat) : Nat :=
  if prompt_len < 512 then 2048
  else if prompt_len < 2048 then 1024
  else if prompt_len < 4096 then 512
  else 256

/-- The claim's batch rule: step function clamped to the (pre-snap) `needed`
value. Stated from the specification's words, for comparison with
`calculate_optimal_batch` applied to the snapped size. -/
def specNeededBatch (prompt_len needed : Nat) : Nat :=
  Nat.min (specStepBatch prompt_len) needed

theorem neededCtx_eq_specClamp (prompt_len : Nat) (params : GenerationParams)
    (eff : Nat) :
    neededCtx prompt_len params eff =
      specClamp (prompt_len + params.max_tokens) (prompt_len + 256) eff := by
  unfold neededCtx specClamp
  dsimp only
  simp only [Nat.min_def, Nat.max_def]
  split_ifs <;> omega

/-! ## UTF-8 re-assembly — src/src/inference/engine.rs (emit_valid_utf8,
flush_utf8_buffer)

`utf8Valid` embeds the validity check of Rust's `str::from_utf8`
(core's `run_utf8_validation`): ASCII, the two/three/four-byte sequence
shapes with the E0/ED/F0/F4 restricted second-byte ranges, rejecting
overlong encodings, surrogates and values above U+10FFFF. -/

/-- A UTF-8 continuation byte: `0x80..=0xBF`. -/
def isCont (b : Nat) : Bool := decide (0x80 ≤ b ∧ b ≤ 0xBF)

/-- Second-byte constraint of a three-byte sequence with lead `b`
(`E0 ⇒ A0..BF`, `ED ⇒ 80..9F`, otherwise a plain continuation byte). -/
def cont3 (b c1 : Nat) : Bool :=
  if b = 0xE0 then decide (0xA0 ≤ c1 ∧ c1 ≤ 0xBF)
  else if b = 0xED then decide (0x80 ≤ c1 ∧ c1 ≤ 0x9F)
  else isCont c1

/-- Second-byte constraint of a four-byte sequence with lead `b`
(`F0 ⇒ 90..BF`, `F4 ⇒ 80..8F`, otherwise a plain continuation byte). -/
def cont4 (b c1 : Nat) : Bool :=
  if b = 0xF0 then decide (0x90 ≤ c1 ∧ c1 ≤ 0xBF)
  else if b = 0xF4 then decide (0x80 ≤ c1 ∧ c1 ≤ 0x8F)
  else isCont c1


/-- Strip one UTF-8 code-point encoding from the front of a byte list:
`some rest` when the list starts with a complete, well-formed sequence,
`none` otherwise (including the empty list). -/
def stripCp : List Nat → Option (List Nat)
  | [] => none
  | b :: l =>
    if b < 0x80 then some l
    else if b < 0xC2 then none
    else if b ≤ 0xDF then
      match l with
      | c1 :: l2 => if isCont c1 then some l2 else none
      | [] => none
    else if b ≤ 0xEF then
      match l with
      | c1 :: c2 :: l3 => if cont3 b c1 && isCont c2 then some l3 else none
      | _ => none
    else if b ≤ 0xF4 then
      match l with
      | c1 :: c2 :: c3 :: l4 =>
        if cont4 b c1 && isCont c2 && isCont c3 then some l4 else none
      | _ => none
    else none

theorem stripCp_length : ∀ (l r : List Nat), stripCp l = some r → r.length < l.length := by
  intro l r h
  match l with
  | [] => simp [stripCp] at h
  | b :: l =>
    simp only [stripCp] at h
    split_ifs at h with h1 h2 h3 h4 h5
    · simp at h; subst h; simp
    · split at h
      · split_ifs at h; simp at h; subst h; simp; omega
      · simp at h
    · split at h
      · split_ifs at h; simp at h; subst h; simp; omega
      · simp at h
    · split at h
      · split_ifs at h; simp at h; subst h; simp; omega
      · simp at h

/-- The stripped code point is a property of the consumed bytes only: the
bytes after them can be replaced arbitrarily. -/
theorem stripCp_decomp : ∀ (l r : List Nat), stripCp l = some r →
    ∃ c, l = c ++ r ∧ ∀ y, stripCp (c ++ y) = some y := by
  intro l r h
  match l with
  | [] => simp [stripCp] at h
  | b :: l =>
    simp only [stripCp] at h
    split_ifs at h with h1 h2 h3 h4 h5
    · simp at h; subst h
      exact ⟨[b], rfl, fun y => by simp [stripCp, h1]⟩
    · match l with
      | c1 :: l2 =>
        dsimp only at h
        split_ifs at h with hc
        simp at h; subst h
        exact ⟨[b, c1], rfl, fun y => by simp [stripCp, h1, h2, h3, hc]⟩
      | [] => simp at h
    · match l with
      | c1 :: c2 :: l3 =>
        dsimp only at h
        split_ifs at h with hc
        simp at h; subst h
        exact ⟨[b, c1, c2], rfl, fun y => by simp [stripCp, h1, h2, h3, h4, hc]⟩
      | [] => simp at h
      | [_] => simp at h
    · match l with
      | c1 :: c2 :: c3 :: l4 =>
        dsimp only at h
        split_ifs at h with hc
        simp at h; subst h
        exact ⟨[b, c1, c2, c3], rfl, fun y => by
          simp [stripCp, h1, h2, h3, h4, h5, hc]⟩
      | [] => simp at h
      | [_] => simp at h
      | [_, _] => simp at h

/-- Fuel-indexed UTF-8 validation driver: repeatedly strips code points;
valid iff the whole list is consumed. Any fuel at least the list length is
adequate. -/
def utf8ValidFuel : Nat → List Nat → Bool
  | _, [] => true
  | 0, _ :: _ => false
  | Nat.succ fuel, b :: l =>
    match stripCp (b :: l) with
    | some r => utf8ValidFuel fuel r
    | none => false

/-- Validity of a byte list as UTF-8, exactly as decided by Rust's
`str::from_utf8` (core's `run_utf8_validation`): ASCII plus the restricted
two/three/four-byte shapes, rejecting overlong encodings, surrogates and
code points above U+10FFFF. -/
def utf8Valid (l : List Nat) : Bool := utf8ValidFuel l.length l

theorem utf8ValidFuel_adequate : ∀ (fuel fuel' : Nat) (l : List Nat),
    l.length ≤ fuel → l.length ≤ fuel' →
    utf8ValidFuel fuel l = utf8ValidFuel fuel' l := by
  intro fuel
  induction fuel with
  | zero =>
    intro fuel' l h _
    have : l = [] := by cases l <;> simp_all
    subst this
    cases fuel' <;> rfl
  | succ n ih =>
    intro fuel' l h h'
    cases l with
    | nil => cases fuel' <;> rfl
    | cons b t =>
      cases fuel' with
      | zero => simp at h'
      | succ m =>
        rw [utf8ValidFuel, utf8ValidFuel]
        cases hs : stripCp (b :: t) with
        | none => rfl
        | some r =>
          have hr := stripCp_length _ _ hs
          simp at hr h h'
          exact ih m r (by omega) (by omega)

theorem utf8Valid_strip {l r : List Nat} (h : stripCp l = some r) :
    utf8Valid l = utf8Valid r := by
  have hne : l ≠ [] := by intro he; subst he; simp [stripCp] at h
  obtain ⟨b, t, rfl⟩ : ∃ b t, l = b :: t := by
    cases l with
    | nil => exact absurd rfl hne
    | cons b t => exact ⟨b, t, rfl⟩
  have hr := stripCp_length _ _ h
  unfold utf8Valid
  rw [show (b :: t).length = t.length + 1 from rfl, utf8ValidFuel, h]
  exact utf8ValidFuel_adequate t.length r.length r (by simp at hr; omega) le_rfl

theorem utf8Valid_stuck {l : List Nat} (h : stripCp l = none) :
    utf8Valid l = l.isEmpty := by
  cases l with
  | nil => rfl
  | cons b t =>
    unfold utf8Valid
    rw [show (b :: t).length = t.length + 1 from rfl, utf8ValidFuel, h]
    rfl

/-- Validity is compositional on the left: a valid chunk can be peeled off
the front without changing validity of the rest. -/
theorem utf8Valid_append_iff (b : List Nat) :
    ∀ a, utf8Valid a = true → utf8Valid (a ++ b) = utf8Valid b := by
  have H : ∀ n a, List.length a ≤ n → utf8Valid a = true →
      utf8Valid (a ++ b) = utf8Valid b := by
    intro n
    induction n with
    | zero =>
      intro a h _
      have : a = [] := by cases a <;> simp_all
      subst this
      simp
    | succ n ih =>
      intro a h hv
      cases ha : a with
      | nil => simp
      | cons b0 t =>
        subst ha
        cases hs : stripCp (b0 :: t) with
        | none =>
          rw [utf8Valid_stuck hs] at hv
          simp at hv
        | some r =>
          have hlen := stripCp_length _ _ hs
          obtain ⟨c, hcr, hport⟩ := stripCp_decomp _ _ hs
          have hv' : utf8Valid r = true := by rw [← utf8Valid_strip hs]; exact hv
          have step : utf8Valid ((b0 :: t) ++ b) = utf8Valid (r ++ b) := by
            rw [hcr, List.append_assoc]
            exact utf8Valid_strip (hport (r ++ b))
          rw [step]
          refine ih r ?_ hv'
          simp at hlen h
          omega
  intro a ha
  exact H a.length a le_rfl ha

theorem utf8Valid_append (a b : List Nat) (ha : utf8Valid a = true)
    (hb : utf8Valid b = true) : utf8Valid (a ++ b) = true := by
  rw [utf8Valid_append_iff b a ha]; exact hb

theorem utf8Valid_append_right (a b : List Nat) (ha : utf8Valid a = true)
    (hab : utf8Valid (a ++ b) = true) : utf8Valid b = true := by
  rw [utf8Valid_append_iff b a ha] at hab; exact hab

/-- The `valid_len` search of `emit_valid_utf8` (engine.rs:935-941): starting
from `k` and counting down, the first length whose prefix of `buf` is valid
UTF-8 (`0` if none is). -/
def lvpAux (buf : List Nat) : Nat → Nat
  | 0 => 0
  | k + 1 => if utf8Valid (buf.take (k + 1)) then k + 1 else lvpAux buf k

/-- Length of the longest valid-UTF-8 prefix of `buf` (what the source's
count-down loop computes when started at the buffer length). -/
def longestValidLen (buf : List Nat) : Nat := lvpAux buf buf.length

theorem lvpAux_le (buf : List Nat) : ∀ k, lvpAux buf k ≤ k := by
  intro k
  induction k with
  | zero => simp [lvpAux]
  | succ n ih =>
    rw [lvpAux]
    split_ifs
    · exact le_rfl
    · exact Nat.le_succ_of_le ih

theorem lvpAux_valid (buf : List Nat) :
    ∀ k, utf8Valid (buf.take (lvpAux buf k)) = true := by
  intro k
  induction k with
  | zero => simp [lvpAux, utf8Valid, utf8ValidFuel]
  | succ n ih =>
    rw [lvpAux]
    split_ifs with h
    · exact h
    · exact ih

theorem lvpAux_maximal (buf : List Nat) :
    ∀ k j, lvpAux buf k < j → j ≤ k → utf8Valid (buf.take j) = false := by
  intro k
  induction k with
  | zero => intro j h1 h2; omega
  | succ n ih =>
    intro j h1 h2
    rw [lvpAux] at h1
    split_ifs at h1 with h
    · omega
    · rcases Nat.lt_or_ge j (n + 1) with hj | hj
      · exact ih j h1 (by omega)
      · have : j = n + 1 := by omega
        subst this
        simpa using h

theorem longestValidLen_of_valid {buf : List Nat} (h : utf8Valid buf = true) :
    longestValidLen buf = buf.length := by
  unfold longestValidLen
  cases hl : buf.length with
  | zero => simp [lvpAux]
  | succ n =>
    rw [lvpAux]
    rw [show buf.take (n + 1) = buf from by rw [← hl]; exact List.take_length buf]
    simp [h]

/-- engine.rs:923 `emit_valid_utf8` on the byte buffer, with the sink
abstracted away (sends never fail, so the early-`false` path is dead):
returns the emitted `Token` texts (as byte lists) and the new buffer.
If the whole buffer is valid it is emitted (when non-empty) and cleared;
otherwise the longest valid prefix (if non-empty) is emitted and drained,
the incomplete suffix retained. -/
def emit_valid_utf8 (buf : List Nat) : List (List Nat) × List Nat :=
  if utf8Valid buf then
    ((if buf.isEmpty then [] else [buf]), [])
  else
    let valid_len := longestValidLen buf
    if 0 < valid_len then ([buf.take valid_len], buf.drop valid_len)
    else ([], buf)

/-- engine.rs:912 `flush_utf8_buffer`: emits the buffer as one final token
iff it is non-empty and decodes as UTF-8 (`String::from_utf8`); the buffer
is emptied either way (`std::mem::take`), which the callers model by not
reusing it. -/
def flush_utf8_buffer (buf : List Nat) : List (List Nat) :=
  if buf.isEmpty then []
  else if utf8Valid buf then [buf] else []

/-- One step of the generation loop's byte accumulation (engine.rs:863-865):
append the token's bytes to the buffer, then `emit_valid_utf8`. -/
def processStep (acc : List (List Nat) × List Nat) (chunk : List Nat) :
    List (List Nat) × List Nat :=
  let step := emit_valid_utf8 (acc.2 ++ chunk)
  (acc.1 ++ step.1, step.2)

/-- Accumulated emissions over a whole sequence of token byte chunks. -/
def processChunks (chunks : List (List Nat)) : List (List Nat) × List Nat :=
  chunks.foldl processStep ([], [])

/-- All `Token` texts emitted for a chunk sequence: the per-step emissions
followed by the end-of-generation flush. -/
def decodeStream (chunks : List (List Nat)) : List (List Nat) :=
  (processChunks chunks).1 ++ flush_utf8_buffer (processChunks chunks).2

theorem emit_valid_utf8_conserve (buf : List Nat) :
    (emit_valid_utf8 buf).1.flatten ++ (emit_valid_utf8 buf).2 = buf := by
  unfold emit_valid_utf8
  dsimp only
  split_ifs with h1 h2 h3
  · simp_all [List.isEmpty_iff]
  · simp
  · simp
  · simp

theorem emit_valid_utf8_take_drop (buf : List Nat) :
    (emit_valid_utf8 buf).1.flatten = buf.take (longestValidLen buf) ∧
    (emit_valid_utf8 buf).2 = buf.drop (longestValidLen buf) := by
  unfold emit_valid_utf8
  dsimp only
  split_ifs with h1 h2 h3
  · have hv := longestValidLen_of_valid h1
    simp_all [List.isEmpty_iff]
  · have hv := longestValidLen_of_valid h1
    simp_all
  · simp
  · have h0 : longestValidLen buf = 0 := by omega
    simp [h0]

theorem emit_valid_utf8_pieces_valid (buf : List Nat) :
    ∀ t ∈ (emit_valid_utf8 buf).1, utf8Valid t = true := by
  intro t ht
  unfold emit_valid_utf8 at ht
  dsimp only at ht
  split_ifs at ht with h1 h2 h3
  · simp at ht
  · simp at ht
    subst ht
    exact h1
  · simp at ht
    subst ht
    exact lvpAux_valid buf buf.length
  · simp at ht

theorem flush_pieces_valid (buf : List Nat) :
    ∀ t ∈ flush_utf8_buffer buf, utf8Valid t = true := by
  intro t ht
  unfold flush_utf8_buffer at ht
  split_ifs at ht with h1 h2
  · simp at ht
  · simp at ht; subst ht; exact h2
  · simp at ht

theorem processChunks_spec (chunks : List (List Nat)) :
    (processChunks chunks).1.flatten ++ (processChunks chunks).2 = chunks.flatten ∧
    (∀ t ∈ (processChunks chunks).1, utf8Valid t = true) := by
  unfold processChunks
  suffices H : ∀ (acc : List (List Nat) × List Nat),
      (chunks.foldl processStep acc).1.flatten ++ (chunks.foldl processStep acc).2 =
        acc.1.flatten ++ acc.2 ++ chunks.flatten ∧
      (∀ t ∈ (chunks.foldl processStep acc).1,
        t ∈ acc.1 ∨ utf8Valid t = true) by
    obtain ⟨h1, h2⟩ := H ([], [])
    refine ⟨by simpa using h1, fun t ht => ?_⟩
    rcases h2 t ht with h | h
    · simp at h
    · exact h
  induction chunks with
  | nil =>
    intro acc
    exact ⟨by simp, fun t ht => Or.inl ht⟩
  | cons c cs ih =>
    intro acc
    rw [List.foldl_cons]
    obtain ⟨ih1, ih2⟩ := ih (processStep acc c)
    constructor
    · rw [ih1]
      unfold processStep
      dsimp only
      rw [List.flatten_append, List.flatten_cons]
      have hc := emit_valid_utf8_conserve (acc.2 ++ c)
      simp only [List.append_assoc]
      congr 1
      rw [← List.append_assoc, hc]
      simp [List.append_assoc]
    · intro t ht
      rcases ih2 t ht with h | h
      · unfold processStep at h
        simp at h
        rcases h with h | h
        · exact Or.inl h
        · exact Or.inr (emit_valid_utf8_pieces_valid _ t h)
      · exact Or.inr h

/-- If the chunks concatenate to a valid UTF-8 byte string, the emitted
tokens concatenate to exactly that string. -/
theorem decodeStream_flatten (chunks : List (List Nat))
    (h : utf8Valid chunks.flatten = true) :
    (decodeStream chunks).flatten = chunks.flatten := by
  obtain ⟨hcons, hval⟩ := processChunks_spec chunks
  have hev : utf8Valid (processChunks chunks).1.flatten = true := by
    generalize (processChunks chunks).1 = em at hval ⊢
    induction em with
    | nil => simp [utf8Valid, utf8ValidFuel]
    | cons p ps ih =>
      simp only [List.flatten_cons]
      refine utf8Valid_append _ _ (hval p (by simp)) (ih ?_)
      intro t ht
      exact hval t (by simp [ht])
  have hbufv : utf8Valid (processChunks chunks).2 = true := by
    refine utf8Valid_append_right (processChunks chunks).1.flatten _ hev ?_
    rw [hcons]
    exact h
  unfold decodeStream flush_utf8_buffer
  split_ifs with h1
  · rw [List.isEmpty_iff] at h1
    rw [← hcons, h1]
    simp
  · rw [← hcons]
    simp

/-! ## Streaming inference — src/src/inference/engine.rs (run_inference,
run_generation_persistent) and src/src/inference/streaming.rs (StreamToken)

`StreamToken` is taken with the variant set `run_inference` actually sends
(engine.rs:896-902): `Token`, `Done`, `Truncated`, `Error`. Token text is
carried as its UTF-8 byte list to stay aligned with the byte-buffer model. -/

inductive StreamToken
  | Token (bytes : List Nat)
  | Done
  | Truncated (tokens_generated max_tokens : Nat)
  | Error (msg : String)
deriving DecidableEq, Repr

/-- Is a stream element one of the three terminal values? -/
def StreamToken.isTerminal : StreamToken → Bool
  | .Token _ => false
  | _ => true

/-- Zero or more `Token` values followed by exactly one terminal value. -/
def wellFormedStream : List StreamToken → Bool
  | [] => false
  | [t] => t.isTerminal
  | t :: u :: rest => !t.isTerminal && wellFormedStream (u :: rest)

/-- All elements are non-terminal `Token`s. -/
def tokensOnly (l : List StreamToken) : Prop :=
  ∀ s ∈ l, s.isTerminal = false

/-- External behaviour visible to one `run_inference` call. `stop k` is the
value returned by the `k`-th `stop_signal.load` executed by the call;
`sample i` the token produced by the sampler at generation step `i`;
`tokenBytes`, `decodePrefill`, `decodeGen` the fallible outcomes of
`model.token_to_bytes` and `ctx.decode`. -/
structure ModelOracle where
  stop : Nat → Bool
  sample : Nat → Nat
  isEog : Nat → Bool
  tokenBytes : Nat → Except String (List Nat)
  decodePrefill : Nat → Except String Unit
  decodeGen : Nat → Except String Unit

/-- The stop flag is only ever raised by the caller during a generation:
once a load returns true, later loads do too. -/
def stopMonotone (o : ModelOracle) : Prop :=
  ∀ i j, i ≤ j → o.stop i = true → o.stop j = true

/-- Result of the prompt prefill loop (engine.rs:797-814): early `return Ok`
when the stop flag is observed at a chunk boundary, `Err` if a decode fails,
otherwise the number of stop-flag loads consumed. -/
inductive PrefillRes
  | stopped
  | failed (msg : String)
  | ok (checks : Nat)
deriving DecidableEq, Repr

/-- engine.rs:797 the prefill chunk loop, indexed by `(chunk index, chunks
remaining, stop-load counter)`. -/
def prefillLoop (o : ModelOracle) : Nat → Nat → Nat → PrefillRes
  | _, 0, checks => .ok checks
  | i, rem + 1, checks =>
    if o.stop checks then .stopped
    else
      match o.decodePrefill i with
      | .error e => .failed ("Decode error: " ++ e)
      | .ok _ => prefillLoop o (i + 1) rem (checks + 1)

/-- Why the sampling loop stopped iterating. -/
inductive ExitReason
  | stopBreak
  | eosBreak
  | budget
deriving DecidableEq, Repr

/-- Mutable state of the sampling loop (engine.rs:836-878). -/
structure GenSt where
  sends : List StreamToken
  buffer : List Nat
  checks : Nat
  tokens_generated : Nat
  genIdx : Nat
deriving DecidableEq, Repr

/-- Outcome of the sampling loop: a normal exit with its reason, or an early
`Err` return (skipping the final flush). -/
inductive GenRes
  | out (st : GenSt) (reason : ExitReason)
  | failed (sends : List StreamToken) (msg : String)
deriving DecidableEq, Repr

/-- engine.rs:843 the sampling loop `for _ in 0..params.max_tokens`:
check stop flag, sample, check end-of-generation (flush on EOS), convert the
token to bytes, buffer them and emit the valid prefix, decode. -/
def genLoop (o : ModelOracle) : Nat → GenSt → GenRes
  | 0, st => .out st .budget
  | rem + 1, st =>
    if o.stop st.checks then .out { st with checks := st.checks + 1 } .stopBreak
    else
      let st := { st with checks := st.checks + 1 }
      let tok := o.sample st.genIdx
      if o.isEog tok then
        .out { st with
          sends := st.sends ++ (flush_utf8_buffer st.buffer).map StreamToken.Token,
          buffer := [] } .eosBreak
      else
        let st := { st with tokens_generated := st.tokens_generated + 1 }
        match o.tokenBytes tok with
        | .error e => .failed st.sends ("Token convert error: " ++ e)
        | .ok bytes =>
          let step := emit_valid_utf8 (st.buffer ++ bytes)
          let st := { st with
            sends := st.sends ++ step.1.map StreamToken.Token,
            buffer := step.2 }
          match o.decodeGen st.genIdx with
          | .error e => .failed st.sends ("Decode error: " ++ e)
          | .ok _ => genLoop o rem { st with genIdx := st.genIdx + 1 }

/-- Everything `run_inference` did, for stating properties: the tokens sent
into the sink, the function result, whether the prefill was cut short by the
stop flag, and the sampling loop's exit reason (when it ran to an exit). -/
structure InferRun where
  sends : List StreamToken
  result : Except String Unit
  prefillStopped : Bool
  exitReason : Option ExitReason
deriving Repr

/-- engine.rs:784-789: keep only the `max(n_ctx − max_tokens, 1)` most
recent prompt tokens. -/
def truncatePromptTokens (prompt0 : List Nat) (max_tokens n_ctx : Nat) :
    List Nat :=
  let max_prompt := Nat.max (n_ctx - max_tokens) 1
  if max_prompt < prompt0.length then prompt0.drop (prompt0.length - max_prompt)
  else prompt0

/-- Number of batches `prompt_tokens.chunks(batch_size)` yields
(engine.rs:797). -/
def chunkCount (len batch_size : Nat) : Nat :=
  (len + batch_size - 1) / batch_size

/-- engine.rs:767 `run_inference`: truncate the prompt to
`max(n_ctx − max_tokens, 1)` tail tokens, prefill in chunks of
`max(1, n_batch)`, run the sampling loop, flush the UTF-8 buffer and send
`Done` (EOS or stop observed) or `Truncated`. -/
def run_inference (prompt0 : List Nat) (params : GenerationParams)
    (n_ctx n_batch : Nat) (o : ModelOracle) : InferRun :=
  if prompt0.isEmpty then ⟨[], .error "Empty prompt", false, none⟩
  else
    let prompt_tokens := truncatePromptTokens prompt0 params.max_tokens n_ctx
    let batch_size := Nat.max 1 n_batch
    let nChunks := chunkCount prompt_tokens.length batch_size
    match prefillLoop o 0 nChunks 0 with
    | .stopped => ⟨[], .ok (), true, none⟩
    | .failed e => ⟨[], .error e, false, none⟩
    | .ok checks =>
      match genLoop o params.max_tokens ⟨[], [], checks, 0, 0⟩ with
      | .failed sends e => ⟨sends, .error e, false, none⟩
      | .out st reason =>
        let sends := st.sends ++ (flush_utf8_buffer st.buffer).map StreamToken.Token
        let terminal :=
          if reason = ExitReason.eosBreak then StreamToken.Done
          else if o.stop st.checks then StreamToken.Done
          else StreamToken.Truncated st.tokens_generated params.max_tokens
        ⟨sends ++ [terminal], .ok (), false, some reason⟩

/-! ## Persistent-context management — engine.rs run_generation_persistent -/

/-- The persistent `LlamaContext` slot of `WorkerState` together with its
recorded `ctx_n_ctx` / `ctx_n_batch` (engine.rs:370-374). -/
structure CtxSlot where
  n_ctx : Nat
  n_batch : Nat
deriving DecidableEq, Repr

/-- engine.rs:583 the `need_new_ctx` match: reuse exactly when a context
exists with `ctx_n_ctx ≥ n_ctx` and `ctx_n_batch ≥ needed_batch`. -/
def need_new_ctx (st : Option CtxSlot) (n_ctx needed_batch : Nat) : Bool :=
  match st with
  | some s =>
    if s.n_ctx ≥ n_ctx ∧ s.n_batch ≥ needed_batch then false
    else true
  | none => true

/-- Observable context-lifecycle actions of one GENERATE, in program order. -/
inductive GenEvent
  | dropCtx
  | createCtx (n_ctx n_batch : Nat)
  | clearKV
  | runStream
deriving DecidableEq, Repr

/-- Everything one `run_generation_persistent` call did. -/
structure GenOutcome where
  ctx : Option CtxSlot
  events : List GenEvent
  sends : List StreamToken
  result : Except String Unit
  reused : Bool
  clampedMax : Option Nat
  prefillStopped : Bool
  exitReason : Option ExitReason
deriving Repr

/-- engine.rs:643-670: the part after the context is settled — clear the KV
cache, clamp `max_tokens` to `min(max_tokens, max(n_ctx − prompt_len, 64))`,
recompute the chunking batch and run `run_inference`. -/
def finish_generation (slot : CtxSlot) (evs : List GenEvent) (toks : List Nat)
    (params : GenerationParams) (o : ModelOracle) (reused : Bool) : GenOutcome :=
  let actual_n_ctx := slot.n_ctx
  let available := Nat.max (actual_n_ctx - toks.length) 64
  let effective_max := Nat.min params.max_tokens available
  let clamped : GenerationParams := ⟨effective_max, params.max_context_size⟩
  let n_batch := calculate_optimal_batch actual_n_ctx toks.length
  let run := run_inference toks clamped actual_n_ctx n_batch o
  ⟨some slot, evs ++ [GenEvent.clearKV, GenEvent.runStream], run.sends, run.result,
    reused, some effective_max, run.prefillStopped, run.exitReason⟩

/-- engine.rs:528 `run_generation_persistent`. `tokens` abstracts prompt
building plus `model.str_to_token` (an `Err` becomes the tokenization
failure); `model_max` is `model.n_ctx_train()`; `createOk` abstracts whether
`new_context` succeeds. -/
def run_generation_persistent (st : Option CtxSlot)
    (tokens : Except String (List Nat)) (params : GenerationParams)
    (model_max : Nat) (createOk : Bool) (o : ModelOracle) : GenOutcome :=
  match tokens with
  | .error e =>
    ⟨st, [], [], .error ("Tokenization failed: " ++ e), false, none, false, none⟩
  | .ok toks =>
    let prompt_len := toks.length
    let effective_max := Nat.min params.max_context_size model_max
    let needed := neededCtx prompt_len params effective_max
    let n_ctx := pick_context_size needed effective_max
    let needed_batch := calculate_optimal_batch n_ctx prompt_len
    if need_new_ctx st n_ctx needed_batch then
      if createOk then
        finish_generation ⟨n_ctx, needed_batch⟩
          [GenEvent.dropCtx, GenEvent.createCtx n_ctx needed_batch]
          toks params o false
      else
        ⟨none, [GenEvent.dropCtx], [], .error "Failed to create context",
          false, none, false, none⟩
    else
      match st with
      | some slot => finish_generation slot [] toks params o true
      | none =>
        ⟨none, [], [], .error "Context disappeared", false, none, false, none⟩

/-- engine.rs:443-457 the worker's `Generate` arm: with no backend or model
a single `Error` is sent; otherwise `run_generation_persistent` runs and an
`Err` result is forwarded into the sink as a final `StreamToken::Error`. -/
def workerGenerate (modelLoaded : Bool) (st : Option CtxSlot)
    (tokens : Except String (List Nat)) (params : GenerationParams)
    (model_max : Nat) (createOk : Bool) (o : ModelOracle) : List StreamToken :=
  if ¬ modelLoaded then [StreamToken.Error "No model loaded"]
  else
    let out := run_generation_persistent st tokens params model_max createOk o
    match out.result with
    | .ok _ => out.sends
    | .error e => out.sends ++ [StreamToken.Error e]

theorem tokensOnly_nil : tokensOnly [] := by
  intro s hs
  simp at hs

theorem tokensOnly_map_Token (xs : List (List Nat)) :
    tokensOnly (xs.map StreamToken.Token) := by
  intro s hs
  simp at hs
  obtain ⟨b, _, rfl⟩ := hs
  rfl

theorem tokensOnly_append {a b : List StreamToken} (ha : tokensOnly a)
    (hb : tokensOnly b) : tokensOnly (a ++ b) := by
  intro s hs
  rcases List.mem_append.mp hs with h | h
  · exact ha s h
  · exact hb s h

theorem wellFormedStream_concat (l : List StreamToken) (t : StreamToken)
    (hl : tokensOnly l) (ht : t.isTerminal = true) :
    wellFormedStream (l ++ [t]) = true := by
  induction l with
  | nil => simpa [wellFormedStream]
  | cons a as ih =>
    have ha : a.isTerminal = false := hl a (by simp)
    have has : tokensOnly as := fun s hs => hl s (by simp [hs])
    cases as with
    | nil => simp [wellFormedStream, ha, ht]
    | cons b bs =>
      have hih := ih has
      simp only [List.cons_append] at hih ⊢
      rw [wellFormedStream]
      simp [ha, hih]

/-- State invariants of the sampling loop: sends stay `Token`-only, at most
`fuel` tokens are generated, the check counter moves forward, and a
`stopBreak` exit records a positive stop-flag load. -/
theorem genLoop_inv (o : ModelOracle) : ∀ (fuel : Nat) (st : GenSt),
    tokensOnly st.sends →
    (match genLoop o fuel st with
     | .out st' reason =>
        tokensOnly st'.sends ∧
        st'.tokens_generated ≤ st.tokens_generated + fuel ∧
        st.checks ≤ st'.checks ∧
        (reason = ExitReason.stopBreak →
          0 < st'.checks ∧ o.stop (st'.checks - 1) = true)
     | .failed sends _ => tokensOnly sends) := by
  intro fuel
  induction fuel with
  | zero =>
    intro st hst
    rw [genLoop]
    exact ⟨hst, by omega, le_rfl, by intro h; cases h⟩
  | succ n ih =>
    intro st hst
    rw [genLoop]
    split_ifs with hstop
    · refine ⟨hst, by dsimp only; omega, by dsimp only; omega, fun _ => ⟨?_, ?_⟩⟩
      · dsimp only; omega
      · dsimp only
        simpa using hstop
    · dsimp only
      split_ifs with heog
      · refine ⟨?_, by dsimp only; omega, by dsimp only; omega, by intro h; cases h⟩
        exact tokensOnly_append hst (tokensOnly_map_Token _)
      · cases hbytes : o.tokenBytes (o.sample st.genIdx) with
        | error e =>
          dsimp only
          exact hst
        | ok bytes =>
          dsimp only
          cases hdec : o.decodeGen st.genIdx with
          | error e =>
            dsimp only
            exact tokensOnly_append hst (tokensOnly_map_Token _)
          | ok _ =>
            dsimp only
            have step : ∀ (st1 : GenSt), tokensOnly st1.sends →
                st1.tokens_generated = st.tokens_generated + 1 →
                st1.checks = st.checks + 1 →
                (match genLoop o n st1 with
                 | GenRes.out st' reason =>
                    tokensOnly st'.sends ∧
                    st'.tokens_generated ≤ st.tokens_generated + (n + 1) ∧
                    st.checks ≤ st'.checks ∧
                    (reason = ExitReason.stopBreak →
                      0 < st'.checks ∧ o.stop (st'.checks - 1) = true)
                 | GenRes.failed sends _ => tokensOnly sends) := by
              intro st1 h1 h2 h3
              have hres := ih st1 h1
              revert hres
              cases genLoop o n st1 with
              | out st' reason =>
                intro hres
                exact ⟨hres.1, by omega, by omega, hres.2.2.2⟩
              | failed sends e =>
                intro hres
                exact hres
            exact step _ (tokensOnly_append hst (tokensOnly_map_Token _)) rfl rfl

/-- Every `createCtx` in the trace happens after a `dropCtx` (the old context
is dropped before the new one is constructed). -/
def createAfterDrop : Bool → List GenEvent → Bool
  | _, [] => true
  | _, GenEvent.dropCtx :: r => createAfterDrop true r
  | seen, GenEvent.createCtx _ _ :: r => seen && createAfterDrop seen r
  | seen, GenEvent.clearKV :: r => createAfterDrop seen r
  | seen, GenEvent.runStream :: r => createAfterDrop seen r

/-- Every `runStream` in the trace happens after a `clearKV` (the KV cache is
cleared before the prompt is decoded). -/
def clearBeforeStream : Bool → List GenEvent → Bool
  | _, [] => true
  | _, GenEvent.clearKV :: r => clearBeforeStream true r
  | seen, GenEvent.runStream :: r => seen && clearBeforeStream seen r
  | seen, GenEvent.dropCtx :: r => clearBeforeStream seen r
  | seen, GenEvent.createCtx _ _ :: r => clearBeforeStream seen r

theorem need_new_ctx_iff (st : Option CtxSlot) (a b : Nat) :
    need_new_ctx st a b = false ↔
      ∃ s, st = some s ∧ a ≤ s.n_ctx ∧ b ≤ s.n_batch := by
  cases st with
  | none => simp [need_new_ctx]
  | some s =>
    unfold need_new_ctx
    dsimp only
    split_ifs with h
    · constructor
      · intro _
        exact ⟨s, rfl, h.1, h.2⟩
      · intro _
        rfl
    · constructor
      · intro hc
        simp at hc
      · rintro ⟨s', hs', h1, h2⟩
        injection hs' with hs'
        subst hs'
        exact absurd ⟨h1, h2⟩ h

/-- Case analysis of one `run_inference` call: behaviour of the prefill-stop
path, well-formedness of the emitted stream, token-only streams on the error
paths, the `Truncated` payload, and the stop-observed-while-sampling path. -/
theorem run_inference_spec (prompt0 : List Nat) (params : GenerationParams)
    (n_ctx n_batch : Nat) (o : ModelOracle) :
    ((run_inference prompt0 params n_ctx n_batch o).prefillStopped = true →
      (run_inference prompt0 params n_ctx n_batch o).sends = [] ∧
      (run_inference prompt0 params n_ctx n_batch o).result = .ok ()) ∧
    ((run_inference prompt0 params n_ctx n_batch o).result = .ok () →
      (run_inference prompt0 params n_ctx n_batch o).prefillStopped = false →
      wellFormedStream (run_inference prompt0 params n_ctx n_batch o).sends = true) ∧
    (∀ e, (run_inference prompt0 params n_ctx n_batch o).result = .error e →
      tokensOnly (run_inference prompt0 params n_ctx n_batch o).sends) ∧
    (∀ g l, StreamToken.Truncated g l ∈
        (run_inference prompt0 params n_ctx n_batch o).sends →
      l = params.max_tokens ∧ g ≤ params.max_tokens) ∧
    (stopMonotone o →
      (run_inference prompt0 params n_ctx n_batch o).exitReason =
        some ExitReason.stopBreak →
      (run_inference prompt0 params n_ctx n_batch o).sends.getLast? =
        some StreamToken.Done) := by
  unfold run_inference
  split_ifs with hemp
  · dsimp only
    refine ⟨?_, ?_, fun e _ => tokensOnly_nil, ?_, ?_⟩
    · intro h
      simp at h
    · intro h
      simp at h
    · intro g l hg
      simp at hg
    · intro _ h
      simp at h
  · dsimp only
    cases hp : prefillLoop o 0
        (chunkCount (truncatePromptTokens prompt0 params.max_tokens n_ctx).length
          (Nat.max 1 n_batch)) 0 with
    | stopped =>
      dsimp only
      refine ⟨fun _ => ⟨rfl, rfl⟩, ?_, ?_, ?_, ?_⟩
      · intro _ h
        simp at h
      · intro e h
        simp at h
      · intro g l hg
        simp at hg
      · intro _ h
        simp at h
    | failed e =>
      dsimp only
      refine ⟨?_, ?_, fun e' _ => tokensOnly_nil, ?_, ?_⟩
      · intro h
        simp at h
      · intro h
        simp at h
      · intro g l hg
        simp at hg
      · intro _ h
        simp at h
    | ok checks =>
      dsimp only
      have hinv := genLoop_inv o params.max_tokens ⟨[], [], checks, 0, 0⟩ tokensOnly_nil
      revert hinv
      cases hg : genLoop o params.max_tokens ⟨[], [], checks, 0, 0⟩ with
      | failed sends e =>
        intro hinv
        dsimp only
        refine ⟨?_, ?_, fun e' _ => hinv, ?_, ?_⟩
        · intro h
          simp at h
        · intro h
          simp at h
        · intro g l hgl
          exact absurd (hinv _ hgl) (by simp [StreamToken.isTerminal])
        · intro _ h
          simp at h
      | out st' reason =>
        intro hinv
        obtain ⟨htok, hgen, hchk, hstop⟩ := hinv
        have htokens : tokensOnly (st'.sends ++
            (flush_utf8_buffer st'.buffer).map StreamToken.Token) :=
          tokensOnly_append htok (tokensOnly_map_Token _)
        have hterm : (if reason = ExitReason.eosBreak then StreamToken.Done
            else if o.stop st'.checks = true then StreamToken.Done
            else StreamToken.Truncated st'.tokens_generated params.max_tokens).isTerminal
              = true := by
          split_ifs <;> rfl
        dsimp only
        refine ⟨?_, ?_, ?_, ?_, ?_⟩
        · intro h
          simp at h
        · intro _ _
          exact wellFormedStream_concat _ _ htokens hterm
        · intro e h
          simp at h
        · intro g l hgl
          rw [List.append_assoc] at hgl
          rcases List.mem_append.mp hgl with h | h
          · exact absurd (htok _ h) (by simp [StreamToken.isTerminal])
          rcases List.mem_append.mp h with h | h
          · exact absurd (tokensOnly_map_Token _ _ h) (by simp [StreamToken.isTerminal])
          · simp only [List.mem_singleton] at h
            have hd : StreamToken.Truncated g l =
                StreamToken.Truncated st'.tokens_generated params.max_tokens := by
              by_cases h1 : reason = ExitReason.eosBreak
              · rw [if_pos h1] at h
                exact absurd h (by simp)
              · rw [if_neg h1] at h
                by_cases h2 : o.stop st'.checks = true
                · rw [if_pos h2] at h
                  exact absurd h (by simp)
                · rw [if_neg h2] at h
                  exact h
            rw [StreamToken.Truncated.injEq] at hd
            obtain ⟨hg', hl'⟩ := hd
            refine ⟨hl', ?_⟩
            have hgen' := hgen
            dsimp only at hgen'
            omega
        · intro hmono hreq
          injection hreq with hreq
          subst hreq
          obtain ⟨hcpos, hcstop⟩ := hstop rfl
          have hnow : o.stop st'.checks = true :=
            hmono (st'.checks - 1) st'.checks (by omega) hcstop
          rw [List.getLast?_concat]
          simp [hnow]

theorem run_inference_exit_ok (prompt0 : List Nat) (params : GenerationParams)
    (n_ctx n_batch : Nat) (o : ModelOracle) (r : ExitReason) :
    (run_inference prompt0 params n_ctx n_batch o).exitReason = some r →
    (run_inference prompt0 params n_ctx n_batch o).result = Except.ok () := by
  unfold run_inference
  split_ifs with hemp
  · intro h
    simp at h
  · dsimp only
    cases prefillLoop o 0
        (chunkCount (truncatePromptTokens prompt0 params.max_tokens n_ctx).length
          (Nat.max 1 n_batch)) 0 with
    | stopped =>
      intro h
      simp at h
    | failed e =>
      intro h
      simp at h
    | ok checks =>
      dsimp only
      cases genLoop o params.max_tokens ⟨[], [], checks, 0, 0⟩ with
      | failed sends e =>
        intro h
        simp at h
      | out st' reason =>
        intro _
        rfl

/-- The clamped output budget of `finish_generation`
(engine.rs:650-651: `available = max(n_ctx − prompt_len, 64)`,
`effective_max = min(max_tokens, available)`). -/
def clampMaxTokens (slot : CtxSlot) (toks : List Nat)
    (params : GenerationParams) : Nat :=
  Nat.min params.max_tokens (Nat.max (slot.n_ctx - toks.length) 64)

theorem finish_generation_spec (slot : CtxSlot) (evs : List GenEvent)
    (toks : List Nat) (params : GenerationParams) (o : ModelOracle)
    (reused : Bool) :
    (((finish_generation slot evs toks params o reused).result = Except.ok () ∧
      (finish_generation slot evs toks params o reused).prefillStopped = false) →
      wellFormedStream (finish_generation slot evs toks params o reused).sends = true) ∧
    ((finish_generation slot evs toks params o reused).prefillStopped = true →
      (finish_generation slot evs toks params o reused).sends = [] ∧
      (finish_generation slot evs toks params o reused).result = Except.ok ()) ∧
    (∀ e, (finish_generation slot evs toks params o reused).result = Except.error e →
      tokensOnly (finish_generation slot evs toks params o reused).sends) ∧
    (stopMonotone o →
      (finish_generation slot evs toks params o reused).exitReason =
        some ExitReason.stopBreak →
      (finish_generation slot evs toks params o reused).result = Except.ok () ∧
      (finish_generation slot evs toks params o reused).sends.getLast? =
        some StreamToken.Done) ∧
    (∀ g l, StreamToken.Truncated g l ∈
        (finish_generation slot evs toks params o reused).sends →
      l = clampMaxTokens slot toks params ∧ g ≤ l) ∧
    ((finish_generation slot evs toks params o reused).clampedMax =
        some (clampMaxTokens slot toks params) ∧
      (finish_generation slot evs toks params o reused).ctx = some slot ∧
      (finish_generation slot evs toks params o reused).events =
        evs ++ [GenEvent.clearKV, GenEvent.runStream] ∧
      (finish_generation slot evs toks params o reused).reused = reused) := by
  have hspec := run_inference_spec toks
    ⟨Nat.min params.max_tokens (Nat.max (slot.n_ctx - toks.length) 64),
      params.max_context_size⟩
    slot.n_ctx (calculate_optimal_batch slot.n_ctx toks.length) o
  have hexit := run_inference_exit_ok toks
    ⟨Nat.min params.max_tokens (Nat.max (slot.n_ctx - toks.length) 64),
      params.max_context_size⟩
    slot.n_ctx (calculate_optimal_batch slot.n_ctx toks.length) o
    ExitReason.stopBreak
  obtain ⟨h1, h2, h3, h4, h5⟩ := hspec
  unfold finish_generation
  dsimp only
  refine ⟨?_, ?_, ?_, ?_, ?_, rfl, rfl, rfl, rfl⟩
  · intro ⟨ha, hb⟩
    exact h2 ha hb
  · exact h1
  · exact h3
  · intro hm hr
    exact ⟨hexit hr, h5 hm hr⟩
  · intro g l hgl
    obtain ⟨hl, hg⟩ := h4 g l hgl
    refine ⟨hl, ?_⟩
    rw [hl]
    exact hg

/-- Behaviour of one `run_generation_persistent` call, split by outcome:
well-formed stream on the ordinary path, empty token-less stream exactly on
the prefill-stop path, token-only sends on the error paths (the worker then
appends the terminal `Error`), terminal `Done` when the stop flag was
observed between sampled tokens. -/
theorem rgp_spec (st : Option CtxSlot) (tokens : Except String (List Nat))
    (params : GenerationParams) (model_max : Nat) (createOk : Bool)
    (o : ModelOracle) :
    (((run_generation_persistent st tokens params model_max createOk o).result =
        Except.ok () ∧
      (run_generation_persistent st tokens params model_max createOk o).prefillStopped
        = false) →
      wellFormedStream
        (run_generation_persistent st tokens params model_max createOk o).sends
        = true) ∧
    ((run_generation_persistent st tokens params model_max createOk o).prefillStopped
        = true →
      (run_generation_persistent st tokens params model_max createOk o).sends = [] ∧
      (run_generation_persistent st tokens params model_max createOk o).result =
        Except.ok ()) ∧
    (∀ e, (run_generation_persistent st tokens params model_max createOk o).result =
        Except.error e →
      tokensOnly
        (run_generation_persistent st tokens params model_max createOk o).sends) ∧
    (stopMonotone o →
      (run_generation_persistent st tokens params model_max createOk o).exitReason =
        some ExitReason.stopBreak →
      (run_generation_persistent st tokens params model_max createOk o).result =
        Except.ok () ∧
      (run_generation_persistent st tokens params model_max createOk o).sends.getLast?
        = some StreamToken.Done) := by
  unfold run_generation_persistent
  cases tokens with
  | error e =>
    dsimp only
    refine ⟨?_, ?_, ?_, ?_⟩
    · rintro ⟨h, _⟩
      simp at h
    · intro h
      simp at h
    · intro e' _
      exact tokensOnly_nil
    · intro _ h
      simp at h
  | ok toks =>
    dsimp only
    split_ifs with hneed hcreate
    · obtain ⟨f1, f2, f3, f4, _, _⟩ := finish_generation_spec
        ⟨pick_context_size
            (neededCtx toks.length params (Nat.min params.max_context_size model_max))
            (Nat.min params.max_context_size model_max),
          calculate_optimal_batch
            (pick_context_size
              (neededCtx toks.length params (Nat.min params.max_context_size model_max))
              (Nat.min params.max_context_size model_max)) toks.length⟩
        [GenEvent.dropCtx,
          GenEvent.createCtx
            (pick_context_size
              (neededCtx toks.length params (Nat.min params.max_context_size model_max))
              (Nat.min params.max_context_size model_max))
            (calculate_optimal_batch
              (pick_context_size
                (neededCtx toks.length params (Nat.min params.max_context_size model_max))
                (Nat.min params.max_context_size model_max)) toks.length)]
        toks params o false
      exact ⟨f1, f2, f3, f4⟩
    · dsimp only
      refine ⟨?_, ?_, ?_, ?_⟩
      · rintro ⟨h, _⟩
        simp at h
      · intro h
        simp at h
      · intro e' _
        exact tokensOnly_nil
      · intro _ h
        simp at h
    · cases st with
      | some slot =>
        obtain ⟨f1, f2, f3, f4, _, _⟩ := finish_generation_spec slot [] toks params o true
        exact ⟨f1, f2, f3, f4⟩
      | none =>
        dsimp only
        refine ⟨?_, ?_, ?_, ?_⟩
        · rintro ⟨h, _⟩
          simp at h
        · intro h
          simp at h
        · intro e' _
          exact tokensOnly_nil
        · intro _ h
          simp at h

/-! ## Concrete oracles for witnesses and counterexamples -/

/-- Oracle for concrete runs: stop never raised, every sampled token is the
ASCII byte 0x41, never end-of-generation, all calls succeed. -/
def neverStopOracle : ModelOracle :=
  ⟨fun _ => false, fun _ => 0, fun _ => false, fun _ => .ok [0x41],
    fun _ => .ok (), fun _ => .ok ()⟩

/-- Oracle whose stop flag reads true from the very first load. -/
def alwaysStopOracle : ModelOracle :=
  ⟨fun _ => true, fun _ => 0, fun _ => false, fun _ => .ok [0x41],
    fun _ => .ok (), fun _ => .ok ()⟩

/-- Oracle whose stop flag reads false on the first load (the only prefill
chunk) and true on every later load. -/
def stopAfterFirstOracle : ModelOracle :=
  ⟨fun k => decide (1 ≤ k), fun _ => 0, fun _ => false, fun _ => .ok [0x41],
    fun _ => .ok (), fun _ => .ok ()⟩

/-- Oracle that immediately samples an end-of-generation token. -/
def immediateEosOracle : ModelOracle :=
  ⟨fun _ => false, fun _ => 0, fun _ => true, fun _ => .ok [0x41],
    fun _ => .ok (), fun _ => .ok ()⟩

theorem stopAfterFirstOracle_monotone : stopMonotone stopAfterFirstOracle := by
  intro i j hij hi
  simp only [stopAfterFirstOracle, decide_eq_true_eq] at hi ⊢
  omega

/-! ## Claim C1 -/

/-- Claim C1, counterexample: when the stop flag is already set at the first
prompt-chunk boundary, `run_inference` returns `Ok` without flushing and
without emitting any terminal value, so the sink sees an empty sequence —
not "zero or more `Token` followed by exactly one terminal", and no `Done`. -/
theorem c1_stop_during_prefill_no_terminal :
    workerGenerate true none (Except.ok [5]) ⟨3, 16384⟩ 16384 true
      alwaysStopOracle = [] ∧
    wellFormedStream (workerGenerate true none (Except.ok [5]) ⟨3, 16384⟩ 16384
      true alwaysStopOracle) = false := by
  constructor
  · decide
  · decide

/-- Claim C1 (amended): for every GENERATE the sink receives zero or more
`Token` values followed by exactly one terminal (`Done`, `Truncated`, or
`Error`) — except when the stop flag is observed at a prompt-chunk boundary
during prefill, in which case the stream ends with no terminal at all (and
this prefill-stop is the only way the stream can be empty); when instead the
stop flag is observed between sampled tokens, the decoder flushes its UTF-8
buffer and the terminal is `Done`. -/
theorem c1_generate_stream_terminal_shape :
    ∀ (modelLoaded : Bool) (st : Option CtxSlot)
      (tokens : Except String (List Nat)) (params : GenerationParams)
      (model_max : Nat) (createOk : Bool) (o : ModelOracle),
    (wellFormedStream
        (workerGenerate modelLoaded st tokens params model_max createOk o) = true ∨
      ((run_generation_persistent st tokens params model_max createOk o).prefillStopped
          = true ∧
        workerGenerate modelLoaded st tokens params model_max createOk o = [])) ∧
    (modelLoaded = true → stopMonotone o →
      (run_generation_persistent st tokens params model_max createOk o).exitReason =
        some ExitReason.stopBreak →
      (workerGenerate modelLoaded st tokens params model_max createOk o).getLast? =
        some StreamToken.Done) ∧
    (workerGenerate modelLoaded st tokens params model_max createOk o = [] ↔
      (modelLoaded = true ∧
        (run_generation_persistent st tokens params model_max createOk o).prefillStopped
          = true)) := by
  intro ml st tokens params mm createOk o
  obtain ⟨r1, r2, r3, r4⟩ := rgp_spec st tokens params mm createOk o
  cases ml with
  | false =>
    refine ⟨Or.inl ?_, ?_, ?_⟩
    · simp [workerGenerate, wellFormedStream, StreamToken.isTerminal]
    · intro h
      simp at h
    · simp [workerGenerate]
  | true =>
    have hw : workerGenerate true st tokens params mm createOk o =
        (match (run_generation_persistent st tokens params mm createOk o).result with
         | Except.ok _ =>
            (run_generation_persistent st tokens params mm createOk o).sends
         | Except.error e =>
            (run_generation_persistent st tokens params mm createOk o).sends ++
              [StreamToken.Error e]) := by
      unfold workerGenerate
      simp
    rw [hw]
    cases hres : (run_generation_persistent st tokens params mm createOk o).result with
    | ok u =>
      cases u
      dsimp only
      refine ⟨?_, ?_, ?_⟩
      · by_cases hpf :
          (run_generation_persistent st tokens params mm createOk o).prefillStopped = true
        · exact Or.inr ⟨hpf, (r2 hpf).1⟩
        · exact Or.inl (r1 ⟨hres, by simpa using hpf⟩)
      · intro _ hm hexit
        exact (r4 hm hexit).2
      · constructor
        · intro hnil
          refine ⟨rfl, ?_⟩
          by_cases hpf :
            (run_generation_persistent st tokens params mm createOk o).prefillStopped
              = true
          · exact hpf
          · have hwf := r1 ⟨hres, by simpa using hpf⟩
            rw [hnil] at hwf
            simp [wellFormedStream] at hwf
        · rintro ⟨_, hpf⟩
          exact (r2 hpf).1
    | error e =>
      dsimp only
      have htok := r3 e hres
      refine ⟨Or.inl (wellFormedStream_concat _ _ htok rfl), ?_, ?_⟩
      · intro _ hm hexit
        have hok := (r4 hm hexit).1
        exact absurd (hok.symm.trans hres) (by simp)
      · constructor
        · intro hnil
          simp at hnil
        · rintro ⟨_, hpf⟩
          exact absurd ((r2 hpf).2.symm.trans hres) (by simp)

/-- Claim C1, witness: a concrete run where the stop flag is raised right
after prefill; the stream's terminal is `Done`, by the amended theorem. -/
theorem c1_witness :
    (workerGenerate true none (Except.ok [5]) ⟨2, 16384⟩ 16384 true
      stopAfterFirstOracle).getLast? = some StreamToken.Done := by
  refine (c1_generate_stream_terminal_shape true none (Except.ok [5]) ⟨2, 16384⟩
    16384 true stopAfterFirstOracle).2.1 rfl stopAfterFirstOracle_monotone ?_
  decide

/-! ## Claim C3 -/

/-- Claim C3: on every GENERATE the existing Context is kept exactly when
`stored.n_ctx ≥ n_ctx` and `stored.n_batch ≥ needed_batch` for the newly
computed target size and batch; otherwise the old Context is dropped before
the new one is constructed; and in both the reuse and rebuild cases the KV
cache is cleared before the prompt is decoded; consequently, a second
GENERATE whose requirements fit the first's actual context always reuses it. -/
theorem c3_context_reuse_rule :
    ∀ (st : Option CtxSlot) (toks : List Nat) (params : GenerationParams)
      (model_max : Nat) (createOk : Bool) (o : ModelOracle),
    ((run_generation_persistent st (Except.ok toks) params model_max createOk o).reused
        = true ↔
      (∃ s, st = some s ∧
        pick_context_size
          (neededCtx toks.length params (Nat.min params.max_context_size model_max))
          (Nat.min params.max_context_size model_max) ≤ s.n_ctx ∧
        calculate_optimal_batch
          (pick_context_size
            (neededCtx toks.length params (Nat.min params.max_context_size model_max))
            (Nat.min params.max_context_size model_max)) toks.length ≤ s.n_batch)) ∧
    (createAfterDrop false
        (run_generation_persistent st (Except.ok toks) params model_max createOk o).events
      = true) ∧
    (clearBeforeStream false
        (run_generation_persistent st (Except.ok toks) params model_max createOk o).events
      = true) ∧
    (GenEvent.runStream ∈
        (run_generation_persistent st (Except.ok toks) params model_max createOk o).events →
      GenEvent.clearKV ∈
        (run_generation_persistent st (Except.ok toks) params model_max createOk o).events) ∧
    (∀ slot,
      (run_generation_persistent st (Except.ok toks) params model_max createOk o).ctx
        = some slot →
      ∀ (toks' : List Nat) (params' : GenerationParams) (model_max' : Nat)
        (createOk' : Bool) (o' : ModelOracle),
      pick_context_size
          (neededCtx toks'.length params' (Nat.min params'.max_context_size model_max'))
          (Nat.min params'.max_context_size model_max') ≤ slot.n_ctx →
      calculate_optimal_batch
          (pick_context_size
            (neededCtx toks'.length params' (Nat.min params'.max_context_size model_max'))
            (Nat.min params'.max_context_size model_max')) toks'.length ≤ slot.n_batch →
      (run_generation_persistent (some slot) (Except.ok toks') params' model_max'
        createOk' o').reused = true) := by
  have main : ∀ (st : Option CtxSlot) (toks : List Nat) (params : GenerationParams)
      (model_max : Nat) (createOk : Bool) (o : ModelOracle),
      ((run_generation_persistent st (Except.ok toks) params model_max createOk o).reused
          = true ↔
        (∃ s, st = some s ∧
          pick_context_size
            (neededCtx toks.length params (Nat.min params.max_context_size model_max))
            (Nat.min params.max_context_size model_max) ≤ s.n_ctx ∧
          calculate_optimal_batch
            (pick_context_size
              (neededCtx toks.length params (Nat.min params.max_context_size model_max))
              (Nat.min params.max_context_size model_max)) toks.length ≤ s.n_batch)) ∧
      (createAfterDrop false
          (run_generation_persistent st (Except.ok toks) params model_max createOk o).events
        = true) ∧
      (clearBeforeStream false
          (run_generation_persistent st (Except.ok toks) params model_max createOk o).events
        = true) ∧
      (GenEvent.runStream ∈
          (run_generation_persistent st (Except.ok toks) params model_max createOk o).events →
        GenEvent.clearKV ∈
          (run_generation_persistent st (Except.ok toks) params model_max createOk o).events) := by
    intro st toks params mm createOk o
    have hiff := need_new_ctx_iff st
      (pick_context_size
        (neededCtx toks.length params (Nat.min params.max_context_size mm))
        (Nat.min params.max_context_size mm))
      (calculate_optimal_batch
        (pick_context_size
          (neededCtx toks.length params (Nat.min params.max_context_size mm))
          (Nat.min params.max_context_size mm)) toks.length)
    unfold run_generation_persistent
    dsimp only
    split_ifs with hneed hcreate
    · obtain ⟨_, _, _, _, _, _, hcm, hev⟩ := finish_generation_spec
        ⟨pick_context_size
            (neededCtx toks.length params (Nat.min params.max_context_size mm))
            (Nat.min params.max_context_size mm),
          calculate_optimal_batch
            (pick_context_size
              (neededCtx toks.length params (Nat.min params.max_context_size mm))
              (Nat.min params.max_context_size mm)) toks.length⟩
        [GenEvent.dropCtx,
          GenEvent.createCtx
            (pick_context_size
              (neededCtx toks.length params (Nat.min params.max_context_size mm))
              (Nat.min params.max_context_size mm))
            (calculate_optimal_batch
              (pick_context_size
                (neededCtx toks.length params (Nat.min params.max_context_size mm))
                (Nat.min params.max_context_size mm)) toks.length)]
        toks params o false
      obtain ⟨hevents, hreused⟩ := hev
      refine ⟨?_, ?_, ?_, ?_⟩
      · rw [hreused]
        constructor
        · intro hc
          simp at hc
        · intro hex
          have := hiff.mpr hex
          rw [hneed] at this
          simp at this
      · rw [hevents]
        rfl
      · rw [hevents]
        rfl
      · intro _
        rw [hevents]
        simp
    · dsimp only
      refine ⟨?_, rfl, rfl, ?_⟩
      · constructor
        · intro hc
          simp at hc
        · intro hex
          have := hiff.mpr hex
          rw [hneed] at this
          simp at this
      · intro hmem
        simp at hmem
    · have hex := hiff.mp (by simpa using hneed)
      obtain ⟨s, hs, h1, h2⟩ := hex
      subst hs
      obtain ⟨_, _, _, _, _, _, hcm, hev⟩ := finish_generation_spec s [] toks params o true
      obtain ⟨hevents, hreused⟩ := hev
      refine ⟨?_, ?_, ?_, ?_⟩
      · rw [hreused]
        simp only [true_iff]
        exact ⟨s, rfl, h1, h2⟩
      · rw [hevents]
        rfl
      · rw [hevents]
        rfl
      · intro _
        rw [hevents]
        simp
  intro st toks params mm createOk o
  obtain ⟨m1, m2, m3, m4⟩ := main st toks params mm createOk o
  refine ⟨m1, m2, m3, m4, ?_⟩
  intro slot hctx toks' params' mm' createOk' o' hle1 hle2
  exact (main (some slot) toks' params' mm' createOk' o').1.mpr ⟨slot, rfl, hle1, hle2⟩

/-- Claim C3, witness: a first GENERATE builds a 2048-token context; a
second one with the same requirements reuses it. -/
theorem c3_witness :
    (run_generation_persistent
      ((run_generation_persistent none (Except.ok [5]) ⟨100, 16384⟩ 16384 true
        immediateEosOracle).ctx)
      (Except.ok [5]) ⟨100, 16384⟩ 16384 true immediateEosOracle).reused = true := by
  refine (c3_context_reuse_rule
    ((run_generation_persistent none (Except.ok [5]) ⟨100, 16384⟩ 16384 true
      immediateEosOracle).ctx)
    [5] ⟨100, 16384⟩ 16384 true immediateEosOracle).1.mpr ?_
  refine ⟨⟨2048, 2048⟩, ?_, ?_, ?_⟩
  · decide
  · decide
  · decide

/-! ## Claim C10 -/

/-- Claim C10: before any token is sampled, the requested `max_tokens` is
silently clamped to `min(requested, max(actual n_ctx − prompt_tokens, 64))`;
the generation loop samples at most that many tokens; and a `Truncated`
terminal reports the clamped value — which can be strictly smaller than the
request — as its `max_tokens` limit, with `tokens_generated` at most that
limit. -/
theorem c10_max_tokens_clamp :
    (∀ (st : Option CtxSlot) (toks : List Nat) (params : GenerationParams)
      (model_max : Nat) (createOk : Bool) (o : ModelOracle),
      (∀ m, (run_generation_persistent st (Except.ok toks) params model_max
          createOk o).clampedMax = some m →
        ∃ slot,
          (run_generation_persistent st (Except.ok toks) params model_max
            createOk o).ctx = some slot ∧
          m = Nat.min params.max_tokens (Nat.max (slot.n_ctx - toks.length) 64)) ∧
      (∀ g l, StreamToken.Truncated g l ∈
          (run_generation_persistent st (Except.ok toks) params model_max
            createOk o).sends →
        (run_generation_persistent st (Except.ok toks) params model_max
          createOk o).clampedMax = some l ∧ g ≤ l)) ∧
    ((run_generation_persistent none (Except.ok [7]) ⟨4096, 2048⟩ 2048 true
        immediateEosOracle).clampedMax = some 2047 ∧ 2047 < 4096) := by
  constructor
  · intro st toks params mm createOk o
    unfold run_generation_persistent
    dsimp only
    split_ifs with hneed hcreate
    · obtain ⟨_, _, _, _, f5, f61, f62, _, _⟩ := finish_generation_spec
        ⟨pick_context_size
            (neededCtx toks.length params (Nat.min params.max_context_size mm))
            (Nat.min params.max_context_size mm),
          calculate_optimal_batch
            (pick_context_size
              (neededCtx toks.length params (Nat.min params.max_context_size mm))
              (Nat.min params.max_context_size mm)) toks.length⟩
        [GenEvent.dropCtx,
          GenEvent.createCtx
            (pick_context_size
              (neededCtx toks.length params (Nat.min params.max_context_size mm))
              (Nat.min params.max_context_size mm))
            (calculate_optimal_batch
              (pick_context_size
                (neededCtx toks.length params (Nat.min params.max_context_size mm))
                (Nat.min params.max_context_size mm)) toks.length)]
        toks params o false
      constructor
      · intro m hm
        rw [f61] at hm
        injection hm with hm
        refine ⟨_, f62, ?_⟩
        rw [← hm]
        rfl
      · intro g l hgl
        obtain ⟨hl, hg⟩ := f5 g l hgl
        exact ⟨by rw [f61, hl], hg⟩
    · dsimp only
      constructor
      · intro m hm
        simp at hm
      · intro g l hgl
        simp at hgl
    · cases st with
      | some slot =>
        obtain ⟨_, _, _, _, f5, f61, f62, _, _⟩ :=
          finish_generation_spec slot [] toks params o true
        constructor
        · intro m hm
          rw [f61] at hm
          injection hm with hm
          refine ⟨_, f62, ?_⟩
          rw [← hm]
          rfl
        · intro g l hgl
          obtain ⟨hl, hg⟩ := f5 g l hgl
          exact ⟨by rw [f61, hl], hg⟩
      | none =>
        dsimp only
        constructor
        · intro m hm
          simp at hm
        · intro g l hgl
          simp at hgl
  · constructor
    · decide
    · decide

/-- Claim C10, witness: a request for 4096 output tokens against a 2048-token
context with a one-token prompt is clamped to 2047. -/
theorem c10_witness :
    ∃ slot, (run_generation_persistent none (Except.ok [7]) ⟨4096, 2048⟩ 2048
        true immediateEosOracle).ctx = some slot ∧
      2047 = Nat.min 4096 (Nat.max (slot.n_ctx - 1) 64) := by
  have h := (c10_max_tokens_clamp.1 none [7] ⟨4096, 2048⟩ 2048 true
    immediateEosOracle).1 2047 (by decide)
  exact h

/-! ## Claim C2 -/

/-- Claim C2: every emitted `Token` is valid UTF-8; each `emit_valid_utf8`
step emits exactly the longest valid-UTF-8 prefix of the buffered bytes and
retains the remaining suffix; the end-of-generation flush emits the remaining
buffer as one final token iff it is non-empty and decodes as UTF-8;
consequently, when the chunks concatenate to a valid UTF-8 string S, the
concatenation of all emitted token texts equals S. -/
theorem c2_utf8_reassembly :
    (∀ (chunks : List (List Nat)), ∀ t ∈ decodeStream chunks, utf8Valid t = true) ∧
    (∀ buf : List Nat,
      (emit_valid_utf8 buf).1.flatten = buf.take (longestValidLen buf) ∧
      (emit_valid_utf8 buf).2 = buf.drop (longestValidLen buf) ∧
      utf8Valid (buf.take (longestValidLen buf)) = true ∧
      (∀ j, longestValidLen buf < j → j ≤ buf.length →
        utf8Valid (buf.take j) = false)) ∧
    (∀ buf : List Nat,
      flush_utf8_buffer buf =
        if buf ≠ [] ∧ utf8Valid buf = true then [buf] else []) ∧
    (∀ (chunks : List (List Nat)), utf8Valid chunks.flatten = true →
      (decodeStream chunks).flatten = chunks.flatten) := by
  refine ⟨?_, ?_, ?_, decodeStream_flatten⟩
  · intro chunks t ht
    unfold decodeStream at ht
    rcases List.mem_append.mp ht with h | h
    · exact (processChunks_spec chunks).2 t h
    · exact flush_pieces_valid _ t h
  · intro buf
    obtain ⟨h1, h2⟩ := emit_valid_utf8_take_drop buf
    exact ⟨h1, h2, lvpAux_valid buf buf.length, lvpAux_maximal buf buf.length⟩
  · intro buf
    unfold flush_utf8_buffer
    by_cases h1 : buf.isEmpty
    · rw [if_pos h1, if_neg]
      rw [List.isEmpty_iff] at h1
      rintro ⟨hne, _⟩
      exact hne h1
    · rw [if_neg h1]
      rw [List.isEmpty_iff] at h1
      by_cases h2 : utf8Valid buf
      · rw [if_pos h2, if_pos]
        exact ⟨h1, h2⟩
      · rw [if_neg h2, if_neg]
        rintro ⟨_, hv⟩
        exact h2 hv

/-- Claim C2, witness: the two-byte code point `é` split across two chunks is
re-assembled exactly. -/
theorem c2_witness :
    (decodeStream [[0xC3], [0xA9]]).flatten = [0xC3, 0xA9] := by
  have h := c2_utf8_reassembly.2.2.2 [[0xC3], [0xA9]] (by decide)
  simpa using h

/-! ## Claim C4 -/

theorem pick_eq_ifs (needed eff : Nat) : pick_context_size needed eff =
    (if needed ≤ 2048 ∧ 2048 ≤ eff then 2048
     else if needed ≤ 4096 ∧ 4096 ≤ eff then 4096
     else if needed ≤ 8192 ∧ 8192 ≤ eff then 8192
     else if needed ≤ 16384 ∧ 16384 ≤ eff then 16384
     else if needed ≤ 32768 ∧ 32768 ≤ eff then 32768
     else if needed ≤ 65536 ∧ 65536 ≤ eff then 65536
     else if needed ≤ 131072 ∧ 131072 ≤ eff then 131072
     else Nat.min needed eff) := by
  unfold pick_context_size standardSizes
  by_cases h1 : needed ≤ 2048 ∧ 2048 ≤ eff
  · rw [List.find?_cons_of_pos _ (by simpa using h1), if_pos h1]
  rw [List.find?_cons_of_neg _ (by simpa using h1), if_neg h1]
  by_cases h2 : needed ≤ 4096 ∧ 4096 ≤ eff
  · rw [List.find?_cons_of_pos _ (by simpa using h2), if_pos h2]
  rw [List.find?_cons_of_neg _ (by simpa using h2), if_neg h2]
  by_cases h3 : needed ≤ 8192 ∧ 8192 ≤ eff
  · rw [List.find?_cons_of_pos _ (by simpa using h3), if_pos h3]
  rw [List.find?_cons_of_neg _ (by simpa using h3), if_neg h3]
  by_cases h4 : needed ≤ 16384 ∧ 16384 ≤ eff
  · rw [List.find?_cons_of_pos _ (by simpa using h4), if_pos h4]
  rw [List.find?_cons_of_neg _ (by simpa using h4), if_neg h4]
  by_cases h5 : needed ≤ 32768 ∧ 32768 ≤ eff
  · rw [List.find?_cons_of_pos _ (by simpa using h5), if_pos h5]
  rw [List.find?_cons_of_neg _ (by simpa using h5), if_neg h5]
  by_cases h6 : needed ≤ 65536 ∧ 65536 ≤ eff
  · rw [List.find?_cons_of_pos _ (by simpa using h6), if_pos h6]
  rw [List.find?_cons_of_neg _ (by simpa using h6), if_neg h6]
  by_cases h7 : needed ≤ 131072 ∧ 131072 ≤ eff
  · rw [List.find?_cons_of_pos _ (by simpa using h7), if_pos h7]
  rw [List.find?_cons_of_neg _ (by simpa using h7), if_neg h7]
  rfl

/-- Claim C4, counterexample: with a 100-token prompt, 500 requested output
tokens and a 16384 effective maximum, `needed = 600` but the snapped context
is 2048, so the code's batch is `min(2048, 2048) = 2048` while the claim's
"step function clamped to needed" gives `min(2048, 600) = 600`. -/
theorem c4_batch_clamp_counterexample :
    neededCtx 100 ⟨500, 16384⟩ 16384 = 600 ∧
    calculate_optimal_batch (pick_context_size (neededCtx 100 ⟨500, 16384⟩ 16384)
      16384) 100 = 2048 ∧
    specNeededBatch 100 (neededCtx 100 ⟨500, 16384⟩ 16384) = 600 ∧
    (2048 : Nat) ≠ 600 := by
  refine ⟨by decide, by decide, by decide, by decide⟩

/-- Claim C4 (amended): `needed` is exactly
`clamp(prompt+max_output, prompt+256, effective_max)`; `pick_context_size`
returns the smallest standard size that is ≥ `needed` and ≤ `effective_max`
when one exists, and `min(needed, effective_max)` otherwise; and the batch
size is the step function of the prompt length clamped to the SNAPPED
context size (not to the pre-snap `needed`). -/
theorem c4_context_sizing :
    (∀ (prompt_len : Nat) (params : GenerationParams) (eff : Nat),
      neededCtx prompt_len params eff =
        specClamp (prompt_len + params.max_tokens) (prompt_len + 256) eff) ∧
    (∀ needed eff : Nat,
      ((∃ s ∈ standardSizes, needed ≤ s ∧ s ≤ eff) →
        pick_context_size needed eff ∈ standardSizes ∧
        needed ≤ pick_context_size needed eff ∧
        pick_context_size needed eff ≤ eff ∧
        (∀ s ∈ standardSizes, needed ≤ s → s ≤ eff →
          pick_context_size needed eff ≤ s)) ∧
      ((¬ ∃ s ∈ standardSizes, needed ≤ s ∧ s ≤ eff) →
        pick_context_size needed eff = Nat.min needed eff)) ∧
    (∀ n_ctx prompt_len : Nat,
      calculate_optimal_batch n_ctx prompt_len =
        Nat.min (specStepBatch prompt_len) n_ctx) := by
  refine ⟨neededCtx_eq_specClamp, ?_, ?_⟩
  · intro needed eff
    have hmem : ∀ s, s ∈ standardSizes ↔
        (s = 2048 ∨ s = 4096 ∨ s = 8192 ∨ s = 16384 ∨ s = 32768 ∨
         s = 65536 ∨ s = 131072) := by
      intro s
      simp [standardSizes]
    constructor
    · intro hex
      rw [pick_eq_ifs]
      obtain ⟨s0, hs0, hq0⟩ := hex
      rw [hmem] at hs0
      split_ifs with h1 h2 h3 h4 h5 h6 h7
      · exact ⟨by simp [standardSizes], by omega, by omega, fun s hs hle1 hle2 => by
          rw [hmem] at hs
          rcases hs with rfl | rfl | rfl | rfl | rfl | rfl | rfl <;> omega⟩
      · exact ⟨by simp [standardSizes], by omega, by omega, fun s hs hle1 hle2 => by
          rw [hmem] at hs
          rcases hs with rfl | rfl | rfl | rfl | rfl | rfl | rfl <;> omega⟩
      · exact ⟨by simp [standardSizes], by omega, by omega, fun s hs hle1 hle2 => by
          rw [hmem] at hs
          rcases hs with rfl | rfl | rfl | rfl | rfl | rfl | rfl <;> omega⟩
      · exact ⟨by simp [standardSizes], by omega, by omega, fun s hs hle1 hle2 => by
          rw [hmem] at hs
          rcases hs with rfl | rfl | rfl | rfl | rfl | rfl | rfl <;> omega⟩
      · exact ⟨by simp [standardSizes], by omega, by omega, fun s hs hle1 hle2 => by
          rw [hmem] at hs
          rcases hs with rfl | rfl | rfl | rfl | rfl | rfl | rfl <;> omega⟩
      · exact ⟨by simp [standardSizes], by omega, by omega, fun s hs hle1 hle2 => by
          rw [hmem] at hs
          rcases hs with rfl | rfl | rfl | rfl | rfl | rfl | rfl <;> omega⟩
      · exact ⟨by simp [standardSizes], by omega, by omega, fun s hs hle1 hle2 => by
          rw [hmem] at hs
          rcases hs with rfl | rfl | rfl | rfl | rfl | rfl | rfl <;> omega⟩
      · exfalso
        rcases hs0 with rfl | rfl | rfl | rfl | rfl | rfl | rfl <;> omega
    · intro hnone
      rw [pick_eq_ifs]
      split_ifs with h1 h2 h3 h4 h5 h6 h7
      · exact absurd ⟨2048, by simp [standardSizes], h1⟩ hnone
      · exact absurd ⟨4096, by simp [standardSizes], h2⟩ hnone
      · exact absurd ⟨8192, by simp [standardSizes], h3⟩ hnone
      · exact absurd ⟨16384, by simp [standardSizes], h4⟩ hnone
      · exact absurd ⟨32768, by simp [standardSizes], h5⟩ hnone
      · exact absurd ⟨65536, by simp [standardSizes], h6⟩ hnone
      · exact absurd ⟨131072, by simp [standardSizes], h7⟩ hnone
      · rfl
  · intro n_ctx prompt_len
    rfl

/-- Claim C4, witness: for `needed = 600`, `eff = 16384` the snapped size is
2048 — the smallest standard size at least 600 and at most 16384. -/
theorem c4_witness :
    pick_context_size 600 16384 ∈ standardSizes ∧
    600 ≤ pick_context_size 600 16384 ∧
    pick_context_size 600 16384 ≤ 16384 ∧
    (∀ s ∈ standardSizes, 600 ≤ s → s ≤ 16384 →
      pick_context_size 600 16384 ≤ s) := by
  exact (c4_context_sizing.2.1 600 16384).1 ⟨2048, by decide, by decide⟩

/-! ## Claim C6 -/

/-- Does a `load_model` result fail with the `ModelLoad` error kind? -/
def resultIsModelLoad : Except EngineError Unit → Bool
  | .error e => e.isModelLoad
  | _ => false

/-- Claim C6, counterexample: an absent (or unreadable) model file fails with
`ModelValidation` (wrapping the validator's `FileOpen`), not with
`ModelLoad`: the public `load_model` runs `validate_gguf` on the calling
thread before the worker's loader ever sees the path. -/
theorem c6_absent_file_counterexample :
    load_model true none true = Except.error (EngineError.ModelValidation
      ModelError.FileOpen) ∧
    resultIsModelLoad (load_model true none true) = false := by
  constructor
  · rfl
  · rfl

/-- Claim C6 (amended): through `LlamaEngine::load_model`, an absent or
unreadable file fails with `ModelValidation FileOpen`, an empty file with
`ModelValidation FileTooSmall`, and GGUF header violations (fewer than 24
bytes, wrong magic, version outside {2,3}) with the corresponding
`ModelValidation` error; `ModelLoad` arises only after the header validation
has succeeded, when the native loader rejects the file. -/
theorem c6_load_error_kinds :
    (∀ (backendInit llamaLoad : Bool),
      load_model backendInit none llamaLoad =
        Except.error (EngineError.ModelValidation ModelError.FileOpen)) ∧
    (∀ (backendInit llamaLoad : Bool) (bytes : List Nat), bytes.length < 24 →
      load_model backendInit (some bytes) llamaLoad =
        Except.error (EngineError.ModelValidation ModelError.FileTooSmall)) ∧
    (∀ (backendInit llamaLoad : Bool) (bytes : List Nat), 24 ≤ bytes.length →
      leNat (bytes.take 4) ≠ GGUF_MAGIC →
      load_model backendInit (some bytes) llamaLoad =
        Except.error (EngineError.ModelValidation
          (ModelError.InvalidMagic (leNat (bytes.take 4))))) ∧
    (∀ (backendInit llamaLoad : Bool) (bytes : List Nat), 24 ≤ bytes.length →
      leNat (bytes.take 4) = GGUF_MAGIC →
      (leNat ((bytes.drop 4).take 4) < 2 ∨ leNat ((bytes.drop 4).take 4) > 3) →
      load_model backendInit (some bytes) llamaLoad =
        Except.error (EngineError.ModelValidation
          (ModelError.UnsupportedVersion (leNat ((bytes.drop 4).take 4))))) ∧
    (∀ (file : Option (List Nat)) (llamaLoad : Bool) (m : GgufMetadata),
      validate_gguf file = Except.ok m →
      load_model true file llamaLoad =
        (if llamaLoad then Except.ok () else
          Except.error (EngineError.ModelLoad "Load failed"))) := by
  refine ⟨?_, ?_, ?_, ?_, ?_⟩
  · intro b l
    rfl
  · intro b l bytes hlen
    unfold load_model validate_gguf
    dsimp only
    rw [if_pos hlen]
  · intro b l bytes hlen hmag
    unfold load_model validate_gguf
    dsimp only
    rw [if_neg (by omega), if_pos hmag]
  · intro b l bytes hlen hmag hver
    unfold load_model validate_gguf
    dsimp only
    rw [if_neg (by omega), if_neg (by simpa using hmag), if_pos hver]
  · intro file l m hval
    unfold load_model
    rw [hval]
    cases file with
    | none => simp [validate_gguf] at hval
    | some bytes =>
      unfold load_model_internal
      have hlen : ¬ bytes.length < 24 := by
        by_contra hc
        unfold validate_gguf at hval
        dsimp only at hval
        rw [if_pos hc] at hval
        cases hval
      rw [if_neg (by simp)]
      dsimp only
      rw [if_neg (by omega)]

/-- Claim C6, witness: a 23-byte file fails as `ModelValidation
FileTooSmall`. -/
theorem c6_witness :
    load_model true (some (List.replicate 23 0)) true =
      Except.error (EngineError.ModelValidation ModelError.FileTooSmall) := by
  exact c6_load_error_kinds.2.1 true true (List.replicate 23 0) (by decide)

/-! ## Worker state machine — engine.rs worker_thread_main (Claim C5) -/

/-- Observable resource actions of one worker command, in program order. -/
inductive WEvent
  | dropCtx
  | newCtx
  | dropModel
  | newModel
  | dropBackend
deriving DecidableEq, Repr

/-- The worker thread's owned state (engine.rs:366-377): the backend, the
loaded model (represented by its `n_ctx_train`), and the persistent context
slot. -/
structure WorkerState where
  backend : Bool
  model : Option Nat
  ctx : Option CtxSlot
deriving Repr

/-- engine.rs:151 `WorkerCommand`, with load/create outcomes and the
per-GENERATE oracle supplied as data. -/
inductive WorkerCommand
  | init (ok : Bool)
  | loadModel (ok : Bool) (train_ctx : Nat)
  | unloadModel
  | generate (tokens : Except String (List Nat)) (params : GenerationParams)
      (createOk : Bool) (o : ModelOracle)
  | shutdown

/-- Context-lifecycle events of a GENERATE, mapped into worker events. -/
def genToW : GenEvent → Option WEvent
  | .dropCtx => some .dropCtx
  | .createCtx _ _ => some .newCtx
  | _ => none

/-- engine.rs:392-471 `worker_thread_main`, one command: the state update and
the ordered list of resource events it performs. `LoadModel` and
`UnloadModel` first clear the context, then the model (engine.rs:419-423,
436-440); `Shutdown` drops context, model, backend in that order
(engine.rs:459-462); `Generate` with no backend or model only reports an
error. -/
def workerStep (s : WorkerState) : WorkerCommand → WorkerState × List WEvent
  | .init ok =>
    ({ s with backend := s.backend || ok }, [])
  | .loadModel ok tc =>
    let evs := (if s.ctx.isSome then [WEvent.dropCtx] else []) ++
      (if s.model.isSome then [WEvent.dropModel] else [])
    if s.backend && ok then
      (⟨s.backend, some tc, none⟩, evs ++ [WEvent.newModel])
    else
      (⟨s.backend, none, none⟩, evs)
  | .unloadModel =>
    (⟨s.backend, none, none⟩,
      (if s.ctx.isSome then [WEvent.dropCtx] else []) ++
      (if s.model.isSome then [WEvent.dropModel] else []))
  | .generate tokens params createOk o =>
    match s.model with
    | some mm =>
      if s.backend then
        let out := run_generation_persistent s.ctx tokens params mm createOk o
        (⟨s.backend, s.model, out.ctx⟩, out.events.filterMap genToW)
      else (s, [])
    | none => (s, [])
  | .shutdown =>
    (⟨false, none, none⟩,
      (if s.ctx.isSome then [WEvent.dropCtx] else []) ++
      (if s.model.isSome then [WEvent.dropModel] else []) ++
      (if s.backend then [WEvent.dropBackend] else []))

/-- The borrow invariant: a context is only held while a model is held. -/
def ctxBorrowInv (s : WorkerState) : Prop :=
  s.model = none → s.ctx = none

/-- Event-order checker: taking `ctxLive` as whether a context currently
exists, a model may be dropped or replaced only while no context is live,
i.e. any live context is dropped strictly first. -/
def dropOrderOk : Bool → List WEvent → Bool
  | _, [] => true
  | _, WEvent.dropCtx :: r => dropOrderOk false r
  | _, WEvent.newCtx :: r => dropOrderOk true r
  | live, WEvent.dropModel :: r => !live && dropOrderOk live r
  | live, WEvent.newModel :: r => !live && dropOrderOk live r
  | live, WEvent.dropBackend :: r => dropOrderOk live r

/-- The worker state at start of the thread (engine.rs:379-390). -/
def initialWorkerState : WorkerState := ⟨false, none, none⟩

/-- Run a command list from a state. -/
def workerRun (s : WorkerState) (cmds : List WorkerCommand) : WorkerState :=
  cmds.foldl (fun st c => (workerStep st c).1) s

theorem rgp_events_shape (st : Option CtxSlot) (tokens : Except String (List Nat))
    (params : GenerationParams) (model_max : Nat) (createOk : Bool)
    (o : ModelOracle) :
    (run_generation_persistent st tokens params model_max createOk o).events.filterMap
        genToW = [] ∨
    (run_generation_persistent st tokens params model_max createOk o).events.filterMap
        genToW = [WEvent.dropCtx] ∨
    (run_generation_persistent st tokens params model_max createOk o).events.filterMap
        genToW = [WEvent.dropCtx, WEvent.newCtx] := by
  unfold run_generation_persistent
  cases tokens with
  | error e =>
    left
    rfl
  | ok toks =>
    dsimp only
    split_ifs with hneed hcreate
    · right
      right
      unfold finish_generation
      dsimp only
      rfl
    · right
      left
      rfl
    · cases st with
      | some slot =>
        left
        unfold finish_generation
        dsimp only
        rfl
      | none =>
        left
        rfl

/-! ## Claim C5 -/

/-- Claim C5: across every worker command (LOAD, UNLOAD, SHUTDOWN, and the
context rebuild inside GENERATE), any live Context is dropped strictly
before the model it borrows is dropped or replaced; and the invariant
"no model ⇒ no context" holds in every reachable state. -/
theorem c5_ctx_dropped_before_model :
    (∀ (s : WorkerState) (c : WorkerCommand),
      dropOrderOk s.ctx.isSome (workerStep s c).2 = true) ∧
    (∀ (s : WorkerState) (c : WorkerCommand),
      ctxBorrowInv s → ctxBorrowInv (workerStep s c).1) ∧
    (∀ cmds : List WorkerCommand, ctxBorrowInv (workerRun initialWorkerState cmds)) := by
  have horder : ∀ (s : WorkerState) (c : WorkerCommand),
      dropOrderOk s.ctx.isSome (workerStep s c).2 = true := by
    intro s c
    obtain ⟨b, m, ctx⟩ := s
    cases c with
    | init ok => rfl
    | loadModel ok tc =>
      cases ctx <;> cases m <;> cases b <;> cases ok <;> rfl
    | unloadModel =>
      cases ctx <;> cases m <;> rfl
    | generate tokens params createOk o =>
      cases m with
      | none => rfl
      | some mm =>
        cases b with
        | false => rfl
        | true =>
          show dropOrderOk ctx.isSome
            ((run_generation_persistent ctx tokens params mm createOk o).events.filterMap
              genToW) = true
          rcases rgp_events_shape ctx tokens params mm createOk o with h | h | h <;>
            rw [h] <;> cases ctx <;> rfl
    | shutdown =>
      cases ctx <;> cases m <;> cases b <;> rfl
  have hinv : ∀ (s : WorkerState) (c : WorkerCommand),
      ctxBorrowInv s → ctxBorrowInv (workerStep s c).1 := by
    intro s c hs
    obtain ⟨b, m, ctx⟩ := s
    cases c with
    | init ok =>
      intro h
      exact hs h
    | loadModel ok tc =>
      cases b <;> cases ok <;> intro h <;> rfl
    | unloadModel =>
      intro _
      rfl
    | generate tokens params createOk o =>
      cases m with
      | none => exact hs
      | some mm =>
        cases b with
        | false => exact hs
        | true =>
          intro h
          simp [workerStep] at h
    | shutdown =>
      intro _
      rfl
  refine ⟨horder, hinv, ?_⟩
  intro cmds
  have : ∀ (s : WorkerState), ctxBorrowInv s →
      ctxBorrowInv (workerRun s cmds) := by
    unfold workerRun
    induction cmds with
    | nil => intro s hs; exact hs
    | cons c cs ih =>
      intro s hs
      rw [List.foldl_cons]
      exact ih _ (hinv s c hs)
  exact this initialWorkerState (fun _ => rfl)

/-- Claim C5, witness: a LOAD on a state holding both a model and a context
produces the ordered event list context-drop, model-drop, model-new, which
the order checker accepts. -/
theorem c5_witness :
    dropOrderOk (some (⟨2048, 2048⟩ : CtxSlot)).isSome
      (workerStep ⟨true, some 16384, some ⟨2048, 2048⟩⟩
        (WorkerCommand.loadModel true 8192)).2 = true := by
  exact c5_ctx_dropped_before_model.1 ⟨true, some 16384, some ⟨2048, 2048⟩⟩
    (WorkerCommand.loadModel true 8192)

/-! ## Permission arbitration — src/src/ui/chat/mod.rs:704-811 and
src/src/agent (Claim C7)

The types `PermissionResult` and `PermissionDecision` and the
`PermissionManager` methods live in src/agent/permissions.rs, which is not
present under src/; the manager's behaviour is modelled from the spec
(§4.5). The call-site logic is embedded from chat/mod.rs. -/

/-- permissions.rs `PermissionResult` (variant set as matched at
chat/mod.rs:726-785). -/
inductive PermissionResult
  | Approved
  | Pending
  | Denied
deriving DecidableEq, Repr

/-- permissions.rs `PermissionDecision` (variant set as matched at
chat/mod.rs:752-772). -/
inductive PermissionDecision
  | Approved
  | Denied
deriving DecidableEq, Repr

/-- The settings consulted at chat/mod.rs:708-713. -/
structure PolicySettings where
  auto_approve_all_tools : Bool
  tool_allowlist : List String
deriving Repr

/-- chat/mod.rs:705-707: the hard-coded internal-safe tool set. -/
def is_internal_safe_tool (tool : String) : Bool :=
  tool = "skill_create" || tool = "skill_invoke" || tool = "skill_list" ||
    tool = "think" || tool = "todo_write"

/-- chat/mod.rs:708-713 `auto_approved`. -/
def auto_approved (settings : PolicySettings) (tool : String) : Bool :=
  settings.auto_approve_all_tools || settings.tool_allowlist.contains tool ||
    is_internal_safe_tool tool

/-- Modelled from the spec: `PermissionManager::request_permission`
(src/agent/permissions.rs is not in the source tree). Per §4.5 step 4, for a
tool that was not auto-approved it enqueues an interactive request and
returns `Pending`; the Bool records that the request was enqueued. -/
def request_permission : PermissionResult × Bool :=
  (PermissionResult.Pending, true)

/-- Modelled from the spec: `PermissionManager::wait_for_decision`
(src/agent/permissions.rs is not in the source tree). Waits up to
`deadlineSecs` for an external decision; `arrival` is the decision and its
arrival time in seconds, `none` if no decision ever comes. Returns `none`
on deadline (§4.5: "On deadline, return Timeout"). -/
def wait_for_decision (deadlineSecs : Nat)
    (arrival : Option (Nat × PermissionDecision)) : Option PermissionDecision :=
  match arrival with
  | some (t, d) => if t ≤ deadlineSecs then some d else none
  | none => none

/-- Outcome of the permission check for one tool call: whether execution was
approved and whether an interactive request was enqueued. -/
structure PermOutcome where
  approved : Bool
  interactive : Bool
deriving DecidableEq, Repr

/-- chat/mod.rs:704-785: the call-site resolution. Auto-approved tools never
reach the manager; otherwise the manager's `Pending` leads to
`wait_for_decision` with a 120-second deadline, and both an explicit
`Denied` and a timeout leave the tool unapproved. -/
def resolve_tool_permission (settings : PolicySettings) (tool : String)
    (arrival : Option (Nat × PermissionDecision)) : PermOutcome :=
  if auto_approved settings tool then ⟨true, false⟩
  else
    match request_permission.1 with
    | PermissionResult.Approved => ⟨true, true⟩
    | PermissionResult.Denied => ⟨false, true⟩
    | PermissionResult.Pending =>
      match wait_for_decision 120 arrival with
      | some PermissionDecision.Approved => ⟨true, true⟩
      | some PermissionDecision.Denied => ⟨false, true⟩
      | none => ⟨false, true⟩

/-- chat/mod.rs:787-811: the tool is executed iff the permission outcome is
approved (`if !approved { … continue; }`). -/
def tool_executed (settings : PolicySettings) (tool : String)
    (arrival : Option (Nat × PermissionDecision)) : Bool :=
  (resolve_tool_permission settings tool arrival).approved

/-! ## Claim C7 -/

/-- Claim C7: a tool call is approved without interactive resolution iff the
tool is internal-safe ({think, todo_write, skill_create, skill_invoke,
skill_list}), or auto-approve-all is on, or the tool is allowlisted;
otherwise an interactive request is made and the loop waits up to 120
seconds, treating an absent or late decision exactly like a denial: the
tool is executed iff an `Approved` decision arrives within the deadline. -/
theorem c7_permission_resolution :
    ∀ (settings : PolicySettings) (tool : String)
      (arrival : Option (Nat × PermissionDecision)),
    (((resolve_tool_permission settings tool arrival).approved = true ∧
      (resolve_tool_permission settings tool arrival).interactive = false) ↔
      (is_internal_safe_tool tool = true ∨
        settings.auto_approve_all_tools = true ∨
        settings.tool_allowlist.contains tool = true)) ∧
    (auto_approved settings tool = false →
      (resolve_tool_permission settings tool arrival).interactive = true ∧
      ((resolve_tool_permission settings tool arrival).approved = true ↔
        (∃ t, arrival = some (t, PermissionDecision.Approved) ∧ t ≤ 120))) ∧
    (tool_executed settings tool arrival =
      (resolve_tool_permission settings tool arrival).approved) := by
  intro settings tool arrival
  refine ⟨?_, ?_, rfl⟩
  · unfold resolve_tool_permission
    by_cases hauto : auto_approved settings tool = true
    · rw [if_pos hauto]
      unfold auto_approved at hauto
      simp only [Bool.or_eq_true] at hauto
      constructor
      · intro _
        tauto
      · intro _
        exact ⟨rfl, rfl⟩
    · rw [if_neg hauto]
      unfold auto_approved at hauto
      simp only [Bool.or_eq_true, not_or] at hauto
      constructor
      · intro h
        unfold request_permission at h
        dsimp only at h
        rcases hw : wait_for_decision 120 arrival with _ | d
        · rw [hw] at h
          simp at h
        · cases d <;> rw [hw] at h <;> simp at h
      · intro h
        tauto
  · intro hna
    have hnauto : ¬ auto_approved settings tool = true := by simp [hna]
    unfold resolve_tool_permission
    rw [if_neg hnauto]
    unfold request_permission
    dsimp only
    constructor
    · rcases hw : wait_for_decision 120 arrival with _ | d
      · rfl
      · cases d <;> rfl
    · cases arrival with
      | none =>
        simp [wait_for_decision]
      | some td =>
        obtain ⟨t, d⟩ := td
        unfold wait_for_decision
        dsimp only
        by_cases ht : t ≤ 120
        · rw [if_pos ht]
          cases d with
          | Approved =>
            simp only []
            constructor
            · intro _
              exact ⟨t, rfl, ht⟩
            · intro _
              trivial
          | Denied =>
            simp only []
            constructor
            · intro h
              simp at h
            · rintro ⟨t', ht', _⟩
              injection ht' with ht''
              injection ht'' with h1 h2
              cases h2
        · rw [if_neg ht]
          simp only []
          constructor
          · intro h
            simp at h
          · rintro ⟨t', ht', hle⟩
            injection ht' with ht''
            injection ht'' with h1 h2
            subst h1
            exact absurd hle ht

/-- Claim C7, witness: with auto-approve off and an empty allowlist, a `bash`
call whose interactive decision `Approved` arrives after 60 seconds is
approved, and one whose decision never arrives is not. -/
theorem c7_witness :
    (resolve_tool_permission ⟨false, []⟩ "bash"
      (some (60, PermissionDecision.Approved))).approved = true ∧
    (resolve_tool_permission ⟨false, []⟩ "bash" none).approved = false ∧
    (resolve_tool_permission ⟨false, []⟩ "bash" none).interactive = true := by
  have h1 := (c7_permission_resolution ⟨false, []⟩ "bash"
    (some (60, PermissionDecision.Approved))).2.1 (by decide)
  have h2 := (c7_permission_resolution ⟨false, []⟩ "bash" none).2.1 (by decide)
  refine ⟨h1.2.mpr ⟨60, rfl, by decide⟩, ?_, h2.1⟩
  by_contra hc
  simp only [Bool.not_eq_false] at hc
  obtain ⟨t, ht, _⟩ := h2.2.mp hc
  cases ht

/-! ## Agent-loop compression control flow — src/src/ui/chat/mod.rs:206-966
(Claim C8)

The loop body is embedded with its compression-relevant branches concrete
(guard checks, proactive compression at :277-335, the post-truncation
compaction at :442-592 with its phase-1/phase-2 sub-branches, the
stream-error and generation-error paths) and the rest of an iteration
(tool-call extraction and execution) folded into the oracle's
`restContinue` outcome. -/

/-- Per-iteration external observations of the agent loop. -/
structure IterInput where
  stop : Bool
  stuck : Bool
  timeUp : Bool
  estimatedTokens : Nat
  genOk : Bool
  streamError : Bool
  wasTruncated : Bool
  stopAfterStream : Bool
  prunedTotal : Nat
  msgCount : Nat
  restContinue : Bool

/-- The per-run agent-loop state the compression logic reads and writes. -/
structure AgentLoopState where
  iteration : Nat
  compression_count : Nat
  consecutive_errors : Nat
deriving DecidableEq, Repr

/-- A context-compression execution, tagged with its iteration. -/
inductive LoopEvent
  | proactive (iter : Nat)
  | postTrunc (iter : Nat)
deriving DecidableEq, Repr

/-- One iteration of the agent loop (chat/mod.rs:210-966), after the
iteration counter has been incremented: the returned Bool is whether the
loop continues. -/
def agentIter (max_context_size : Nat) (inp : IterInput)
    (st : AgentLoopState) : AgentLoopState × List LoopEvent × Bool :=
  if inp.stop then (st, [], false)
  else if inp.stuck then (st, [], false)
  else if inp.timeUp then (st, [], false)
  else
    let threshold := max_context_size * 75 / 100
    if inp.estimatedTokens > threshold ∧ st.compression_count = 0 then
      ({ st with compression_count := st.compression_count + 1 },
        [LoopEvent.proactive st.iteration], true)
    else if inp.genOk = false then
      let st1 : AgentLoopState :=
        { st with consecutive_errors := st.consecutive_errors + 1 }
      (st1, [], if st1.consecutive_errors ≥ 3 then false else true)
    else
      let st2 : AgentLoopState :=
        if inp.streamError then
          { st with consecutive_errors := st.consecutive_errors + 1 }
        else st
      if inp.wasTruncated ∧ inp.stopAfterStream = false then
        if st2.compression_count ≥ 2 then (st2, [], false)
        else
          let st3 : AgentLoopState :=
            { st2 with compression_count := st2.compression_count + 1 }
          if inp.prunedTotal < 12000 ∧ st3.iteration < 3 then
            (st3, [LoopEvent.postTrunc st3.iteration], true)
          else if inp.prunedTotal < 12000 then
            (st3, [LoopEvent.postTrunc st3.iteration], false)
          else if inp.msgCount > 2 then
            (st3, [LoopEvent.postTrunc st3.iteration], true)
          else (st3, [LoopEvent.postTrunc st3.iteration], false)
      else if inp.streamError then
        if st2.consecutive_errors < 3 then (st2, [], true) else (st2, [], false)
      else
        let st4 : AgentLoopState := { st2 with consecutive_errors := 0 }
        (st4, [], inp.restContinue)

/-- The `while agent_ctx.iteration < max_iterations` driver
(chat/mod.rs:210), with fuel bounding the recursion. -/
def agentLoopGo (mcs max_iterations : Nat) (o : Nat → IterInput) :
    Nat → AgentLoopState → AgentLoopState × List LoopEvent
  | 0, st => (st, [])
  | fuel + 1, st =>
    if st.iteration < max_iterations then
      let st1 : AgentLoopState := { st with iteration := st.iteration + 1 }
      let step := agentIter mcs (o st1.iteration) st1
      if step.2.2 then
        let rest := agentLoopGo mcs max_iterations o fuel step.1
        (rest.1, step.2.1 ++ rest.2)
      else (step.1, step.2.1)
    else (st, [])

/-- One whole agent run: fresh per-turn state, loop until exhaustion. -/
def agentLoop (mcs max_iterations : Nat) (o : Nat → IterInput) :
    AgentLoopState × List LoopEvent :=
  agentLoopGo mcs max_iterations o max_iterations ⟨0, 0, 0⟩

theorem agentIter_count (mcs : Nat) (inp : IterInput) (st : AgentLoopState) :
    (agentIter mcs inp st).1.compression_count =
      st.compression_count + (agentIter mcs inp st).2.1.length ∧
    (st.compression_count ≤ 2 → (agentIter mcs inp st).1.compression_count ≤ 2) := by
  have hc2 : ∀ (c : Bool) (x : Nat),
      ((if c = true then { st with consecutive_errors := x } else st) :
        AgentLoopState).compression_count = st.compression_count := by
    intro c x
    cases c <;> rfl
  have hi2 : ∀ (c : Bool) (x : Nat),
      ((if c = true then { st with consecutive_errors := x } else st) :
        AgentLoopState).iteration = st.iteration := by
    intro c x
    cases c <;> rfl
  unfold agentIter
  dsimp only
  by_cases h1 : inp.stop = true
  · rw [if_pos h1]
    exact ⟨by simp, fun h => by simpa using h⟩
  rw [if_neg h1]
  by_cases h2 : inp.stuck = true
  · rw [if_pos h2]
    exact ⟨by simp, fun h => by simpa using h⟩
  rw [if_neg h2]
  by_cases h3 : inp.timeUp = true
  · rw [if_pos h3]
    exact ⟨by simp, fun h => by simpa using h⟩
  rw [if_neg h3]
  by_cases h4 : mcs * 75 / 100 < inp.estimatedTokens ∧ st.compression_count = 0
  · rw [if_pos h4]
    refine ⟨by simp, fun _ => ?_⟩
    simp [h4.2]
  rw [if_neg h4]
  by_cases h5 : inp.genOk = false
  · rw [if_pos h5]
    exact ⟨by simp, fun h => by simpa using h⟩
  rw [if_neg h5]
  by_cases h6 : inp.wasTruncated = true ∧ inp.stopAfterStream = false
  · rw [if_pos h6]
    simp only [hc2, hi2]
    split_ifs with h7 h8 h9 h10 <;> refine ⟨by simp, fun h => ?_⟩ <;>
      (try simp only [hc2]) <;> omega
  · rw [if_neg h6]
    simp only [hc2, hi2]
    split_ifs <;> exact ⟨by simp, fun h => by simpa using h⟩

theorem agentLoopGo_count (mcs max_iters : Nat) (o : Nat → IterInput) :
    ∀ (fuel : Nat) (st : AgentLoopState),
    (agentLoopGo mcs max_iters o fuel st).1.compression_count =
      st.compression_count + (agentLoopGo mcs max_iters o fuel st).2.length ∧
    (st.compression_count ≤ 2 →
      (agentLoopGo mcs max_iters o fuel st).1.compression_count ≤ 2) := by
  intro fuel
  induction fuel with
  | zero =>
    intro st
    exact ⟨by simp [agentLoopGo], fun h => by simpa [agentLoopGo] using h⟩
  | succ n ih =>
    intro st
    rw [agentLoopGo]
    split_ifs with hiter
    · dsimp only
      obtain ⟨hc1, hc2⟩ := agentIter_count mcs
        (o ({ st with iteration := st.iteration + 1 } : AgentLoopState).iteration)
        { st with iteration := st.iteration + 1 }
      split_ifs with hcont
      · dsimp only
        obtain ⟨hr1, hr2⟩ := ih (agentIter mcs
          (o ({ st with iteration := st.iteration + 1 } : AgentLoopState).iteration)
          { st with iteration := st.iteration + 1 }).1
        constructor
        · rw [hr1, hc1]
          simp
          omega
        · intro hle
          exact hr2 (hc2 hle)
      · exact ⟨hc1, hc2⟩
    · exact ⟨by simp, fun h => h⟩

/-! ## Claim C8 -/

/-- Claim C8: within a single agent run, context compression executes at
most twice; the proactive compression fires exactly when the estimated token
count exceeds 75% of `max_context_size` (integer arithmetic) and no
compression has run yet this turn; and the post-truncation compaction runs
only while the compression count is below 2. -/
theorem c8_compression_budget :
    (∀ (mcs max_iters : Nat) (o : Nat → IterInput),
      (agentLoop mcs max_iters o).2.length ≤ 2) ∧
    (∀ (mcs : Nat) (inp : IterInput) (st : AgentLoopState),
      inp.stop = false → inp.stuck = false → inp.timeUp = false →
      (LoopEvent.proactive st.iteration ∈ (agentIter mcs inp st).2.1 ↔
        (inp.estimatedTokens > mcs * 75 / 100 ∧ st.compression_count = 0))) ∧
    (∀ (mcs : Nat) (inp : IterInput) (st : AgentLoopState) (i : Nat),
      LoopEvent.postTrunc i ∈ (agentIter mcs inp st).2.1 →
      st.compression_count < 2) := by
  refine ⟨?_, ?_, ?_⟩
  · intro mcs max_iters o
    obtain ⟨h1, h2⟩ := agentLoopGo_count mcs max_iters o max_iters ⟨0, 0, 0⟩
    unfold agentLoop
    have := h2 (by simp)
    omega
  · intro mcs inp st hstop hstuck htime
    unfold agentIter
    rw [if_neg (by simp [hstop]), if_neg (by simp [hstuck]), if_neg (by simp [htime])]
    dsimp only
    split_ifs with hfire <;> simp_all
  · intro mcs inp st i hmem
    have hc2 : ∀ (c : Bool) (x : Nat),
        ((if c = true then { st with consecutive_errors := x } else st) :
          AgentLoopState).compression_count = st.compression_count := by
      intro c x
      cases c <;> rfl
    unfold agentIter at hmem
    dsimp only at hmem
    by_cases h1 : inp.stop = true
    · rw [if_pos h1] at hmem
      exact absurd hmem (by simp)
    rw [if_neg h1] at hmem
    by_cases h2 : inp.stuck = true
    · rw [if_pos h2] at hmem
      exact absurd hmem (by simp)
    rw [if_neg h2] at hmem
    by_cases h3 : inp.timeUp = true
    · rw [if_pos h3] at hmem
      exact absurd hmem (by simp)
    rw [if_neg h3] at hmem
    by_cases h4 : inp.estimatedTokens > mcs * 75 / 100 ∧ st.compression_count = 0
    · rw [if_pos h4] at hmem
      exact absurd hmem (by simp)
    rw [if_neg h4] at hmem
    by_cases h5 : inp.genOk = false
    · rw [if_pos h5] at hmem
      exact absurd hmem (by simp)
    rw [if_neg h5] at hmem
    by_cases h6 : inp.wasTruncated = true ∧ inp.stopAfterStream = false
    · rw [if_pos h6] at hmem
      simp only [hc2] at hmem
      by_cases h7 : st.compression_count ≥ 2
      · rw [if_pos h7] at hmem
        exact absurd hmem (by simp)
      · omega
    · rw [if_neg h6] at hmem
      by_cases h8 : inp.streamError = true
      · rw [if_pos h8] at hmem
        split_ifs at hmem <;> exact absurd hmem (by simp)
      · rw [if_neg h8] at hmem
        exact absurd hmem (by simp)

/-- Claim C8, witness: a first iteration at 90% of a 16384-token context with
no prior compression fires the proactive compression. -/
theorem c8_witness :
    LoopEvent.proactive 1 ∈ (agentIter 16384
      ⟨false, false, false, 15000, true, false, false, false, 0, 0, true⟩
      ⟨1, 0, 0⟩).2.1 := by
  exact (c8_compression_budget.2.1 16384
    ⟨false, false, false, 15000, true, false, false, false, 0, 0, true⟩
    ⟨1, 0, 0⟩ rfl rfl rfl).mpr ⟨by decide, rfl⟩

/-! ## Zero-cost pruning — src/src/ui/chat/mod.rs:293-323 (proactive) and
:457-475 (phase 1 after truncation) (Claim C9)

UI messages are embedded with their content as a character list; the source
measures `content.len()` in bytes and takes `chars()`, which coincide on the
single-byte alphabet the theorems use. -/

/-- chat/message.rs `MessageRole`. -/
inductive MsgRole
  | System
  | User
  | Assistant
deriving DecidableEq, Repr

/-- A UI chat message. -/
structure UiMessage where
  role : MsgRole
  content : List Char
deriving DecidableEq, Repr

/-- chat/mod.rs:300-304: the proactive truncation marker,
`"...\n[Tronqué: {len} caractères originaux]"`. -/
def truncMarkerProactive (orig : Nat) : List Char :=
  "...\n[Tronqué: ".data ++ (Nat.repr orig).data ++ " caractères originaux]".data

/-- chat/mod.rs:298-305: the proactive per-message truncation — ANY message
longer than 2000 (regardless of role) keeps its first 1500 characters plus
the marker. -/
def proactiveTruncOne (m : UiMessage) : UiMessage :=
  if 2000 < m.content.length then
    ⟨m.role, m.content.take 1500 ++ truncMarkerProactive m.content.length⟩
  else m

/-- chat/mod.rs:311-314: the elision placeholder,
`"[{n} messages précédents compressés]"`. -/
def elidedSummary (n : Nat) : List Char :=
  "[".data ++ (Nat.repr n).data ++ " messages précédents compressés]".data

/-- chat/mod.rs:293-323: the proactive zero-cost pruning — truncate every
over-long message, then, when more than 6 messages are present, keep (the
truncated versions of) the last 4 and put one placeholder System message in
front. -/
def proactivePrune (msgs : List UiMessage) : List UiMessage :=
  let msg_count := msgs.length
  let truncated := msgs.map proactiveTruncOne
  if 6 < msg_count then
    let keep := 4
    let recent := (truncated.reverse.take keep).reverse
    ⟨MsgRole.System, elidedSummary (msg_count - keep)⟩ :: recent
  else truncated

/-- chat/mod.rs:466-469: the phase-1 truncation marker,
`"...\n\n[Contenu tronqué - {len} caractères]"`. -/
def truncMarkerPhase1 (orig : Nat) : List Char :=
  "...\n\n[Contenu tronqué - ".data ++ (Nat.repr orig).data ++ " caractères]".data

/-- chat/mod.rs:462-473: the phase-1 per-message truncation — only System
messages longer than 2000 are replaced by their first 500 characters plus
the marker. -/
def phase1TruncOne (m : UiMessage) : UiMessage :=
  if m.role = MsgRole.System ∧ 2000 < m.content.length then
    ⟨m.role, m.content.take (Nat.min 500 m.content.length) ++
      truncMarkerPhase1 m.content.length⟩
  else m

/-- chat/mod.rs:457-475: phase-1 zero-cost pruning after a truncated
response: the per-message truncation applied to every message, with no
count-based elision. -/
def phase1Prune (msgs : List UiMessage) : List UiMessage :=
  msgs.map phase1TruncOne

/-! ## Claim C9 -/

/-- Claim C9, counterexample: (a) the proactive tier-1 pruning rewrites a
2001-character USER message (the claim says only system messages are
truncated, to ~500 chars; the code truncates every role, to 1500 chars);
(b) the phase-1 tier-1 pruning leaves a 7-message conversation of short
system messages completely unchanged (the claim requires eliding all but
the last 4 behind a placeholder). -/
theorem c9_pruning_counterexample :
    (proactivePrune [⟨MsgRole.User, List.replicate 2001 'a'⟩] ≠
      [⟨MsgRole.User, List.replicate 2001 'a'⟩]) ∧
    (phase1Prune (List.replicate 7 ⟨MsgRole.System, ['h', 'i']⟩) =
      List.replicate 7 ⟨MsgRole.System, ['h', 'i']⟩) ∧
    (List.replicate 7 (⟨MsgRole.System, ['h', 'i']⟩ : UiMessage)).length = 7 := by
  refine ⟨?_, by decide, by decide⟩
  intro hEq
  have hgen : ∀ (r : MsgRole) (c : List Char), 2000 < c.length →
      proactiveTruncOne ⟨r, c⟩ = ⟨r, c.take 1500 ++ truncMarkerProactive c.length⟩ := by
    intro r c hc
    unfold proactiveTruncOne
    rw [if_pos hc]
  have h1 : proactivePrune [⟨MsgRole.User, List.replicate 2001 'a'⟩] =
      [proactiveTruncOne ⟨MsgRole.User, List.replicate 2001 'a'⟩] := rfl
  rw [h1] at hEq
  have h2 := hgen MsgRole.User (List.replicate 2001 'a')
    (by rw [List.length_replicate]; omega)
  rw [h2] at hEq
  have h3 := congrArg
    (fun l => (List.headD l ⟨MsgRole.User, []⟩).content.length) hEq
  have hm : (truncMarkerProactive 2001).length = 40 := by decide
  simp only [List.headD_cons, List.length_append, List.length_take,
    List.length_replicate, hm] at h3
  simp only [Nat.min_def] at h3
  split_ifs at h3 <;> omega

/-- Claim C9 (amended): the phase-1 (post-truncation) pruning replaces each
System message longer than 2000 characters by its first 500 characters plus
a marker, leaves every other message unchanged, and never elides messages;
the proactive pruning truncates EVERY message longer than 2000 characters
(any role) to its first 1500 characters plus a marker and, when the
conversation has more than 6 messages, keeps the last 4 (in their truncated
form) and replaces the rest by a single placeholder System message stating
how many were compressed. -/
theorem c9_tier1_pruning :
    (∀ msgs : List UiMessage, phase1Prune msgs = msgs.map phase1TruncOne) ∧
    (∀ m : UiMessage, m.role ≠ MsgRole.System ∨ m.content.length ≤ 2000 →
      phase1TruncOne m = m) ∧
    (∀ m : UiMessage, m.role = MsgRole.System → 2000 < m.content.length →
      phase1TruncOne m =
        ⟨MsgRole.System, m.content.take 500 ++ truncMarkerPhase1 m.content.length⟩) ∧
    (∀ msgs : List UiMessage, (phase1Prune msgs).length = msgs.length) ∧
    (∀ m : UiMessage, m.content.length ≤ 2000 → proactiveTruncOne m = m) ∧
    (∀ m : UiMessage, 2000 < m.content.length →
      proactiveTruncOne m =
        ⟨m.role, m.content.take 1500 ++ truncMarkerProactive m.content.length⟩) ∧
    (∀ msgs : List UiMessage, 6 < msgs.length →
      proactivePrune msgs =
        ⟨MsgRole.System, elidedSummary (msgs.length - 4)⟩ ::
          ((msgs.map proactiveTruncOne).reverse.take 4).reverse) ∧
    (∀ msgs : List UiMessage, msgs.length ≤ 6 →
      proactivePrune msgs = msgs.map proactiveTruncOne) := by
  refine ⟨fun _ => rfl, ?_, ?_, ?_, ?_, ?_, ?_, ?_⟩
  · intro m hm
    unfold phase1TruncOne
    rw [if_neg]
    rintro ⟨hrole, hlen⟩
    rcases hm with hm | hm
    · exact hm hrole
    · omega
  · intro m hrole hlen
    unfold phase1TruncOne
    rw [if_pos ⟨hrole, hlen⟩, hrole]
    have : Nat.min 500 m.content.length = 500 := by
      simp only [Nat.min_def]
      split_ifs <;> omega
    rw [this]
  · intro msgs
    unfold phase1Prune
    simp
  · intro m hm
    unfold proactiveTruncOne
    rw [if_neg (by omega)]
  · intro m hm
    unfold proactiveTruncOne
    rw [if_pos hm]
  · intro msgs hlen
    unfold proactivePrune
    dsimp only
    rw [if_pos hlen]
  · intro msgs hlen
    unfold proactivePrune
    dsimp only
    rw [if_neg (by omega)]

/-- Claim C9, witness: a short non-system message passes phase-1 pruning
unchanged. -/
theorem c9_witness :
    phase1TruncOne ⟨MsgRole.User, ['o', 'k']⟩ = ⟨MsgRole.User, ['o', 'k']⟩ := by
  exact c9_tier1_pruning.2.1 ⟨MsgRole.User, ['o', 'k']⟩ (Or.inl (by decide))

end ClawRS
